import Mathlib

/-!
Offset pointers and the allocator-aware array.

A shallow embedding of `example_code/offptr.hpp`, `example_code/arena.hpp` and
`example_code/vlarray.hpp`, followed by theorems about the embedded code.

Conventions of the embedding:

* `std::uintptr_t` and `std::size_t` are natural numbers below `2 ^ w`; every arithmetic
  operation of the offset pointer and of the arena is followed by an explicit `% 2 ^ w`.
* The counts and indices of `vlarray` stay within the count of one block, so they are plain
  natural numbers; its addresses count elements, slot `i` of the block at `p` is `p + i`.
* The storage pointer of `vlarray` is the address it resolves to, `pointer()` is `0`.
* A destructor run where no element is alive is undefined behaviour: the world records it in
  its field `ub`. A read of an element that is not alive ends the run as `Result.undefined`.
* A native pointer is the natural number of its address, the null native pointer is address `0`.
* `std::ptrdiff_t` is an integer; pointer arithmetic on a `T *` scales by `sz = sizeof(T)`.
* An object is identified by the address at which it is stored (`this`).
-/

namespace OffPtrBase

/-- An `OffPtrBase<T>` object: the address `self` at which the object is stored (the value of
`this`) together with its only data member `offset`. -/
structure Obj where
  self : Nat
  offset : Nat
deriving DecidableEq

/-- The null native pointer. -/
def nullptr : Nat := 0

/-- Source: `static std::uintptr_t const null_value = static_cast<std::uintptr_t>(-1);`. -/
def null_value (w : Nat) : Nat := 2 ^ w - 1

/-- Source: `add_offset(p, n)`, the address `p + n` computed in `std::uintptr_t`. -/
def add_offset (w p n : Nat) : Nat := (p + n) % 2 ^ w

/-- Source: `get_offset(from, to)`, the difference `to - from` computed in `std::uintptr_t`. -/
def get_offset (w frm tgt : Nat) : Nat := (tgt + 2 ^ w - frm) % 2 ^ w

/-- Source: `null()`, `offset == null_value`. -/
def null (w : Nat) (p : Obj) : Bool := p.offset == null_value w

/-- Source: `get()`, `null() ? nullptr : add_offset(this, offset)`. -/
def get (w : Nat) (p : Obj) : Nat :=
  if null w p then nullptr else add_offset w p.self p.offset

/-- Source: `explicit operator bool()`, `!null()`. -/
def operator_bool (w : Nat) (p : Obj) : Bool := !null w p

/-- Native pointer arithmetic `p + n` on a `T *` with `sizeof(T) = sz`, in `w`-bit words. -/
def ptr_add (w sz : Nat) (p : Nat) (n : Int) : Nat :=
  (((p : Int) + n * (sz : Int)) % (2 : Int) ^ w).toNat

/-- The value of a `w`-bit word read as a two's complement `std::ptrdiff_t`. -/
def to_signed (w x : Nat) : Int :=
  if x < 2 ^ (w - 1) then (x : Int) else (x : Int) - (2 : Int) ^ w

/-- Native pointer subtraction `last - first` on `T *` (what `std::distance(first, last)`
computes): the signed byte distance divided by `sizeof(T)`. For a byte distance that is not a
multiple of `sizeof(T)` the source has no defined result; the quotient here rounds down, as
the arithmetic shift of the compiled subtraction does. -/
def distance (w sz : Nat) (first last : Nat) : Int :=
  to_signed w (get_offset w first last) / (sz : Int)

/-- Source: `crement(n)`, `get_offset(this, get() + n)`. -/
def crement (w sz : Nat) (p : Obj) (n : Int) : Nat :=
  get_offset w p.self (ptr_add w sz (get w p) n)

/-- Source: `OffPtrBase()`, a default-constructed object at address `self`. -/
def default_ctor (w self : Nat) : Obj := ⟨self, null_value w⟩

/-- Source: `OffPtrBase(T * native)`, constructed at address `self`. -/
def native_ctor (w self native : Nat) : Obj :=
  ⟨self, if native = nullptr then null_value w else get_offset w self native⟩

/-- Source: `OffPtrBase(OffPtrBase const & rhs)`, constructed at address `self`. -/
def copy_ctor (w self : Nat) (rhs : Obj) : Obj :=
  ⟨self, if null w rhs then null_value w else get_offset w self (get w rhs)⟩

/-- Source: `operator=(OffPtrBase const & rhs)`; `this != &rhs` compares the two addresses. -/
def operator_assign (w : Nat) (this rhs : Obj) : Obj :=
  if this.self ≠ rhs.self then
    { this with offset := if null w rhs then null_value w else get_offset w this.self (get w rhs) }
  else this

/-- Source: `operator=(std::nullptr_t)`. -/
def operator_assign_nullptr (w : Nat) (this : Obj) : Obj :=
  { this with offset := null_value w }

end OffPtrBase

namespace OffPtr

open OffPtrBase

/-- Source: `operator+(n)`, `OffPtr(this->get() + n)`; the result is built at address `tmp`. -/
def operator_plus (w sz tmp : Nat) (p : Obj) (n : Int) : Obj :=
  native_ctor w tmp (ptr_add w sz (get w p) n)

/-- Source: `operator+=(n)`, `this->offset = this->crement(n)`. -/
def operator_plus_assign (w sz : Nat) (p : Obj) (n : Int) : Obj :=
  { p with offset := crement w sz p n }

/-- Source: `operator-(n)`, `OffPtr(this->get() - n)`; the result is built at address `tmp`. -/
def operator_minus (w sz tmp : Nat) (p : Obj) (n : Int) : Obj :=
  native_ctor w tmp (ptr_add w sz (get w p) (-n))

/-- Source: `operator-=(n)`, `this->offset = this->crement(-n)`. -/
def operator_minus_assign (w sz : Nat) (p : Obj) (n : Int) : Obj :=
  { p with offset := crement w sz p (-n) }

/-- Source: `operator-(OffPtr const & rhs)`, `std::distance(rhs.get(), this->get())`. -/
def operator_diff (w sz : Nat) (this rhs : Obj) : Int :=
  distance w sz (get w rhs) (get w this)

/-- Source: `operator++()`. -/
def operator_pre_inc (w sz : Nat) (p : Obj) : Obj :=
  { p with offset := crement w sz p 1 }

/-- Source: `operator--()`. -/
def operator_pre_dec (w sz : Nat) (p : Obj) : Obj :=
  { p with offset := crement w sz p (-1) }

/-- Source: `operator++(int)`: the copy `tmp` built at address `tmp` and the updated `*this`. -/
def operator_post_inc (w sz tmp : Nat) (p : Obj) : Obj × Obj :=
  (copy_ctor w tmp p, operator_pre_inc w sz p)

/-- Source: `operator--(int)`: the copy `tmp` built at address `tmp` and the updated `*this`. -/
def operator_post_dec (w sz tmp : Nat) (p : Obj) : Obj × Obj :=
  (copy_ctor w tmp p, operator_pre_dec w sz p)

/-- The native pointer `t` is not null and is neither the address just before `S` nor the one
just before `tmp`: an offset pointer stored at either address can hold `t`. -/
def representable (w S tmp t : Nat) : Prop :=
  t ≠ nullptr ∧ (t + 1) % 2 ^ w ≠ S ∧ (t + 1) % 2 ^ w ≠ tmp

end OffPtr

namespace Arena

/-- Source: the data members of `Arena`: the base address `data` of the preallocated block,
its capacity `size`, and the fill level `offset`. -/
structure State where
  data : Nat
  size : Nat
  offset : Nat
deriving DecidableEq

/-- Source: `Arena::allocate(n, a)` in `w`-bit `std::size_t` arithmetic. The fill level is
first rounded up to a multiple of `a`; `none` is `throw std::bad_alloc()`, which leaves the
rounded fill level behind; otherwise the result is the address `data + offset`. With `a = 0`
the source divides by zero; here the quotient is `0`. -/
def allocate (w : Nat) (A : State) (n a : Nat) : Option Nat × State :=
  let offset := ((((A.offset + a) % 2 ^ w + 2 ^ w - 1) % 2 ^ w) / a * a) % 2 ^ w
  if (offset + n) % 2 ^ w > A.size then
    (none, { A with offset := offset })
  else
    (some ((A.data + offset) % 2 ^ w), { A with offset := (offset + n) % 2 ^ w })

/-- Source: `Arena::deallocate(void *, n)`, which only prints. -/
def deallocate (A : State) (_p _n : Nat) : State := A

/-- The value of `(offset + a - 1) / a * a` in unbounded arithmetic: the fill level `offset`
rounded up to the alignment `a`. -/
def round_up (offset a : Nat) : Nat := (offset + a - 1) / a * a

end Arena

namespace vlarray

/-- A call made through `std::allocator_traits`, with the allocator `a` it was made on.
Addresses count elements: slot `i` of the block at `p` is the address `p + i`. -/
inductive Event (T : Type) where
  | allocate (a n p : Nat)
  | allocate_throw (a n : Nat)
  | construct (a addr : Nat) (x : T)
  | construct_throw (a addr : Nat) (x : T)
  | destroy (a addr : Nat)
  | deallocate (a p n : Nat)
deriving DecidableEq

/-- A block of storage handed out by `allocate` and not yet given back. -/
structure Block where
  alloc : Nat
  ptr : Nat
  count : Nat
deriving DecidableEq

/-- The memory and the allocator collaborators as the array sees them. `trace` lists the
calls made so far, oldest first; `live addr` is the element object alive at `addr`; `blocks`
are the blocks currently allocated; every address handed out so far is `≤ next`; `nalloc` and
`nctor` count the calls of `allocate` and `construct`. `ub` is set once a destructor has been
run on an address where no element is alive, which is undefined behaviour: from then on the
world only records the calls the code goes on to make, and nothing it says is a guarantee
about the program. -/
structure World (T : Type) where
  trace : List (Event T)
  live : Nat → Option T
  blocks : List Block
  next : Nat
  nalloc : Nat
  nctor : Nat
  ub : Bool

/-- Which calls fail: the `i`-th call of `allocate` throws when `alloc_throws i`, the `i`-th
element construction throws when `construct_throws i`. -/
structure Env where
  alloc_throws : Nat → Bool
  construct_throws : Nat → Bool

/-- The exception that leaves a function. -/
inductive Exn where
  | bad_alloc
  | element
deriving DecidableEq

/-- How a call ends: it returns `v`, an exception propagates, or it reads an element that is
not alive (undefined behaviour with no value to go on with, so the run ends there). -/
inductive Result (T α : Type) where
  | ret (v : α) (w : World T)
  | throw (e : Exn) (w : World T)
  | undefined

/-- How the construction loop of `internal_construct` ends: it ran to its end, `construct`
threw with the given value of `current`, or it read a source element that is not alive. -/
inductive LoopResult (T : Type) where
  | done (w : World T)
  | threw (current : Nat) (w : World T)
  | undefined

/-- Modelled from the spec: the allocator collaborator `allocate(count) -> pointer`, the
template parameter `Alloc` of the array. It throws, or hands out a fresh non-null block
`[p, p + n)` beyond every address handed out before, as `::operator new` does for the
allocator of `offptr_alloc.hpp`. -/
def allocate {T : Type} (env : Env) (a n : Nat) (w : World T) : Option Nat × World T :=
  if env.alloc_throws w.nalloc then
    (none, { w with trace := w.trace ++ [Event.allocate_throw a n], nalloc := w.nalloc + 1 })
  else
    (some (w.next + 1),
      { w with
        trace := w.trace ++ [Event.allocate a n (w.next + 1)]
        blocks := ⟨a, w.next + 1, n⟩ :: w.blocks
        next := w.next + 1 + n
        nalloc := w.nalloc + 1 })

/-- Modelled from the spec: the allocator collaborator `deallocate(pointer, count)`. -/
def deallocate {T : Type} (a p n : Nat) (w : World T) : World T :=
  { w with
    trace := w.trace ++ [Event.deallocate a p n]
    blocks := w.blocks.filter (fun b => b.ptr ≠ p) }

/-- The call `traits::construct(a, addr, x)`: it throws (`false`) or an element equal to `x`
comes alive at `addr` (`true`). -/
def construct {T : Type} (env : Env) (a addr : Nat) (x : T) (w : World T) : Bool × World T :=
  if env.construct_throws w.nctor then
    (false, { w with trace := w.trace ++ [Event.construct_throw a addr x], nctor := w.nctor + 1 })
  else
    (true,
      { w with
        trace := w.trace ++ [Event.construct a addr x]
        live := Function.update w.live addr (some x)
        nctor := w.nctor + 1 })

/-- The call `traits::destroy(a, addr)`, which runs `~T()` at `addr`: no element is alive at
`addr` afterwards. Where no element is alive at `addr` before the call the destructor runs on
raw storage, which is undefined behaviour and sets `ub`. -/
def destroy {T : Type} (a addr : Nat) (w : World T) : World T :=
  { w with
    trace := w.trace ++ [Event.destroy a addr]
    live := Function.update w.live addr none
    ub := w.ub || (w.live addr).isNone }

/-- Source: `struct representation : allocator_type { pointer data; size_type size; }`.
The allocator base is the identity `alloc` of the allocator; two allocators compare equal iff
their identities are equal, and a copy of an allocator has the identity of its source. The
pointer is the address it resolves to, `pointer()` is `0`. -/
structure representation where
  alloc : Nat
  data : Nat
  size : Nat
deriving DecidableEq

/-- A `vlarray` object: the address `self` at which it is stored and its member `r`. -/
structure Obj where
  self : Nat
  r : representation
deriving DecidableEq

/-- Source: `data()`, `std::addressof(*r.data)`. -/
def data (v : Obj) : Nat := v.r.data

/-- Source: `size()`. -/
def size (v : Obj) : Nat := v.r.size

/-- Source: `empty()`, `r.size == 0`. -/
def empty (v : Obj) : Bool := v.r.size == 0

/-- Source: `get_allocator()`. -/
def get_allocator (v : Obj) : Nat := v.r.alloc

/-- Source: `operator[](i)` read, `data()[i]`. -/
def operator_index {T : Type} (v : Obj) (i : Nat) (w : World T) : Option T :=
  w.live (data v + i)

/-- The loop of `internal_clear`, `for (i = 0; i != size(); ++i)`, with `k` iterations left:
`k = size() - i - 1; traits::destroy(a, data() + k);`. -/
def internal_clear_loop {T : Type} (a dat sz : Nat) : Nat → Nat → World T → World T
  | 0, _, w => w
  | k + 1, i, w => internal_clear_loop a dat sz k (i + 1) (destroy a (dat + (sz - i - 1)) w)

/-- Source: `internal_clear()`. -/
def internal_clear {T : Type} (v : Obj) (w : World T) : World T :=
  if empty v then w
  else deallocate v.r.alloc v.r.data (size v)
    (internal_clear_loop v.r.alloc (data v) (size v) (size v) 0 w)

/-- The `try` block of `internal_construct`, `for (i = 0; i != n; ++i, ++current)` with `k`
iterations left: `traits::construct(a, std::addressof(*p) + i, src[i]);`. -/
def internal_construct_loop {T : Type} (env : Env) (a p src : Nat) :
    Nat → Nat → Nat → World T → LoopResult T
  | 0, _, _, w => LoopResult.done w
  | k + 1, i, current, w =>
    match w.live (src + i) with
    | none => LoopResult.undefined
    | some x =>
      match construct env a (p + i) x w with
      | (true, w1) => internal_construct_loop env a p src k (i + 1) (current + 1) w1
      | (false, w1) => LoopResult.threw current w1

/-- The handler of `internal_construct`:
`do { traits::destroy(a, std::addressof(*p) + current); } while (current --> 0);`. -/
def internal_construct_unwind {T : Type} (a p : Nat) : Nat → World T → World T
  | 0, w => destroy a (p + 0) w
  | current + 1, w => internal_construct_unwind a p current (destroy a (p + (current + 1)) w)

/-- Source: `internal_construct(a, src, n)`. -/
def internal_construct {T : Type} (env : Env) (a src n : Nat) (w : World T) : Result T Nat :=
  match allocate env a n w with
  | (none, w1) => Result.throw Exn.bad_alloc w1
  | (some p, w1) =>
    match internal_construct_loop env a p src n 0 0 w1 with
    | LoopResult.done w2 => Result.ret p w2
    | LoopResult.threw current w2 =>
      Result.throw Exn.element (deallocate a p n (internal_construct_unwind a p current w2))
    | LoopResult.undefined => Result.undefined

/-- The loop of the fill constructor, `for (i = 0; i != size(); ++i)` with `k` iterations
left: `traits::construct(a, std::addressof(*p) + i, x);`. It is not inside a `try` block. -/
def fill_loop {T : Type} (env : Env) (a p : Nat) (x : T) : Nat → Nat → World T → Bool × World T
  | 0, _, w => (true, w)
  | k + 1, i, w =>
    match construct env a (p + i) x w with
    | (true, w1) => fill_loop env a p x k (i + 1) w1
    | (false, w1) => (false, w1)

/-- Source: `vlarray(std::allocator_arg_t, allocator_type const & alloc)`. -/
def ctor_alloc (self alloc : Nat) : Obj := ⟨self, ⟨alloc, 0, 0⟩⟩

/-- Source: `vlarray(std::allocator_arg_t, alloc, n, x)`. An exception leaves the constructor
as it is thrown: the object never existed, so its destructor does not run. -/
def ctor_fill {T : Type} (env : Env) (self alloc n : Nat) (x : T) (w : World T) :
    Result T Obj :=
  match allocate env alloc n w with
  | (none, w1) => Result.throw Exn.bad_alloc w1
  | (some p, w1) =>
    match fill_loop env alloc p x n 0 w1 with
    | (true, w2) => Result.ret ⟨self, ⟨alloc, p, n⟩⟩ w2
    | (false, w2) => Result.throw Exn.element w2

/-- Source: `~vlarray()`. -/
def dtor {T : Type} (v : Obj) (w : World T) : World T := internal_clear v w

/-- Source: `clear()`. -/
def clear {T : Type} (v : Obj) (w : World T) : Obj × World T :=
  ({ v with r := { v.r with data := 0, size := 0 } }, internal_clear v w)

/-- Source: `vlarray(std::allocator_arg_t, alloc, vlarray const & rhs)`. -/
def ctor_alloc_copy {T : Type} (env : Env) (self alloc : Nat) (rhs : Obj) (w : World T) :
    Result T Obj :=
  match internal_construct env alloc (data rhs) rhs.r.size w with
  | Result.ret p w1 => Result.ret ⟨self, ⟨alloc, p, rhs.r.size⟩⟩ w1
  | Result.throw e w1 => Result.throw e w1
  | Result.undefined => Result.undefined

/-- Source: `vlarray(vlarray const & rhs)`; `socc` is the allocator's
`select_on_container_copy_construction`. -/
def ctor_copy {T : Type} (env : Env) (socc : Nat → Nat) (self : Nat) (rhs : Obj)
    (w : World T) : Result T Obj :=
  ctor_alloc_copy env self (socc rhs.r.alloc) rhs w

/-- Source: `vlarray(vlarray && rhs)`: the new object, the source afterwards, and the world,
on which no call is made. -/
def ctor_move {T : Type} (self : Nat) (rhs : Obj) (w : World T) : Obj × Obj × World T :=
  (⟨self, rhs.r⟩, { rhs with r := { rhs.r with data := 0, size := 0 } }, w)

/-- Source: `vlarray(std::allocator_arg_t, alloc, vlarray && rhs)`: the new object and the
source afterwards. -/
def ctor_alloc_move {T : Type} (env : Env) (self alloc : Nat) (rhs : Obj) (w : World T) :
    Result T (Obj × Obj) :=
  if alloc = rhs.r.alloc then
    Result.ret (⟨self, ⟨alloc, rhs.r.data, rhs.r.size⟩⟩,
      { rhs with r := { rhs.r with data := 0, size := 0 } }) w
  else
    match internal_construct env alloc (data rhs) rhs.r.size w with
    | Result.ret p w1 => Result.ret (⟨self, ⟨alloc, p, rhs.r.size⟩⟩, rhs) w1
    | Result.throw e w1 => Result.throw e w1
    | Result.undefined => Result.undefined

/-- Source: `swap(rhs)`, `std::swap(r, rhs.r)`: `*this` and `rhs` afterwards, and the world,
on which no call is made. -/
def swap {T : Type} (this rhs : Obj) (w : World T) : Obj × Obj × World T :=
  ({ this with r := rhs.r }, { rhs with r := this.r }, w)

/-- Source: `operator=(vlarray const & rhs)`; `pocca` is
`propagate_on_container_copy_assignment`. The first component is `*this` when the call ends,
whichever way it ends. -/
def operator_assign {T : Type} (env : Env) (pocca : Bool) (this rhs : Obj) (w : World T) :
    Obj × Result T Unit :=
  if this.self = rhs.self then (this, Result.ret () w)
  else if pocca then
    match internal_construct env rhs.r.alloc (data rhs) (size rhs) w with
    | Result.ret p w1 =>
      let this1 : Obj := { this with r := { this.r with alloc := rhs.r.alloc } }
      let w2 := internal_clear this1 w1
      ({ this1 with r := { this1.r with data := p, size := size rhs } }, Result.ret () w2)
    | Result.throw e w1 => (this, Result.throw e w1)
    | Result.undefined => (this, Result.undefined)
  else
    match internal_construct env this.r.alloc (data rhs) (size rhs) w with
    | Result.ret p w1 =>
      let w2 := internal_clear this w1
      ({ this with r := { this.r with data := p, size := size rhs } }, Result.ret () w2)
    | Result.throw e w1 => (this, Result.throw e w1)
    | Result.undefined => (this, Result.undefined)

/-- Source: `internal_move_assign(vlarray && rhs, std::true_type)`: `*this` and `rhs`
afterwards. -/
def internal_move_assign_true {T : Type} (this rhs : Obj) (w : World T) :
    Obj × Obj × World T :=
  let w1 := internal_clear this w
  ({ this with r := ⟨rhs.r.alloc, rhs.r.data, rhs.r.size⟩ },
    { rhs with r := { rhs.r with data := 0, size := 0 } }, w1)

/-- Source: `internal_move_assign(vlarray && rhs, std::false_type)`: `*this` and `rhs` when
the call ends, whichever way it ends. -/
def internal_move_assign_false {T : Type} (env : Env) (this rhs : Obj) (w : World T) :
    Obj × Obj × Result T Unit :=
  if this.r.alloc = rhs.r.alloc then
    let w1 := internal_clear this w
    ({ this with r := { this.r with data := rhs.r.data, size := rhs.r.size } },
      { rhs with r := { rhs.r with data := 0, size := 0 } }, Result.ret () w1)
  else
    match internal_construct env this.r.alloc (data rhs) (size rhs) w with
    | Result.ret p w1 =>
      let w2 := internal_clear this w1
      ({ this with r := { this.r with data := p, size := size rhs } }, rhs, Result.ret () w2)
    | Result.throw e w1 => (this, rhs, Result.throw e w1)
    | Result.undefined => (this, rhs, Result.undefined)

/-- Source: `operator=(vlarray && rhs)`; `pocma` is
`propagate_on_container_move_assignment`. -/
def operator_assign_move {T : Type} (env : Env) (pocma : Bool) (this rhs : Obj)
    (w : World T) : Obj × Obj × Result T Unit :=
  if this.self ≠ rhs.self then
    if pocma then
      match internal_move_assign_true this rhs w with
      | (this1, rhs1, w1) => (this1, rhs1, Result.ret () w1)
    else internal_move_assign_false env this rhs w
  else (this, rhs, Result.ret () w)

/-- The world in which a call ended (an empty world marked `ub` when the call ended by the
read of an element that is not alive). -/
def Result.world {T α : Type} : Result T α → World T
  | Result.ret _ w => w
  | Result.throw _ w => w
  | Result.undefined => ⟨[], fun _ => none, [], 0, 0, 0, true⟩

/-- What a run from `w` to `w1` left alone below the address `bound`: the elements alive below
`bound` are the same, the calls made since `w` destroy nothing below `bound`, and the blocks
allocated below `bound` are still allocated. -/
def Frame {T : Type} (bound : Nat) (w w1 : World T) : Prop :=
  (∀ addr, addr < bound → w1.live addr = w.live addr) ∧
  (∃ evs, w1.trace = w.trace ++ evs ∧ ∀ al addr, Event.destroy al addr ∈ evs → bound ≤ addr) ∧
  (∀ b ∈ w.blocks, b.ptr < bound → b ∈ w1.blocks)

/-- The world before any call: nothing alive, nothing allocated. -/
def World.init (T : Type) : World T := ⟨[], fun _ => none, [], 0, 0, 0, false⟩

/-- The calls never fail. -/
def Env.never : Env := ⟨fun _ => false, fun _ => false⟩

/-- The element construction number `k` (counted from 0) fails, nothing else does. -/
def Env.construct_fails_at (k : Nat) : Env := ⟨fun _ => false, fun i => i == k⟩

/-- The world after `vlarray a(2, 1)` on the allocator 7 and `vlarray b(3, 42)` on the
allocator 9, built in that order from the initial world. -/
def World.two_arrays : World Nat :=
  (ctor_fill Env.never 2000 9 3 42 (ctor_fill Env.never 1000 7 2 1 (World.init Nat)).world).world

/-- The array `a` of `World.two_arrays`: two elements at addresses 1 and 2. -/
def Obj.demo_a : Obj := ⟨1000, ⟨7, 1, 2⟩⟩

/-- The array `b` of `World.two_arrays`: three elements at addresses 4, 5 and 6. -/
def Obj.demo_b : Obj := ⟨2000, ⟨9, 4, 3⟩⟩

/-- The world after `vlarray a(0, 1)` on the allocator 7 and `vlarray b(3, 42)` on the
allocator 9, built in that order from the initial world. -/
def World.zero_and_three : World Nat :=
  (ctor_fill Env.never 2000 9 3 42 (ctor_fill Env.never 1000 7 0 1 (World.init Nat)).world).world

/-- The array `a` of `World.zero_and_three`: no element, and the zero-count block at address 1
that `allocate(0)` handed out. -/
def Obj.demo_zero : Obj := ⟨1000, ⟨7, 1, 0⟩⟩

/-- The array `b` of `World.zero_and_three`: three elements at addresses 2, 3 and 4. -/
def Obj.demo_three : Obj := ⟨2000, ⟨9, 2, 3⟩⟩

end vlarray

section Lemmas

open OffPtrBase

theorem mod_of_lt_two_mul (M x : Nat) (h : x < 2 * M) :
    x % M = if x < M then x else x - M := by
  split_ifs with hx
  · exact Nat.mod_eq_of_lt hx
  · have h1 : x = (x - M) + M := by omega
    rw [h1, Nat.add_mod_right, Nat.mod_eq_of_lt (by omega)]
    omega

theorem get_offset_add_offset (w S d : Nat) (hS : S < 2 ^ w) (hd : d < 2 ^ w) :
    get_offset w S (add_offset w S d) = d := by
  unfold get_offset add_offset
  rw [mod_of_lt_two_mul (2 ^ w) (S + d) (by omega)]
  split_ifs with h
  · rw [mod_of_lt_two_mul _ _ (by omega)]
    split_ifs <;> omega
  · rw [mod_of_lt_two_mul _ _ (by omega)]
    split_ifs <;> omega

theorem add_offset_get_offset (w S t : Nat) (hS : S < 2 ^ w) (ht : t < 2 ^ w) :
    add_offset w S (get_offset w S t) = t := by
  unfold get_offset add_offset
  rw [mod_of_lt_two_mul (2 ^ w) (t + 2 ^ w - S) (by omega)]
  split_ifs with h
  · rw [mod_of_lt_two_mul _ _ (by omega)]
    split_ifs <;> omega
  · rw [mod_of_lt_two_mul _ _ (by omega)]
    split_ifs <;> omega

theorem get_offset_lt (w S t : Nat) : get_offset w S t < 2 ^ w :=
  Nat.mod_lt _ (Nat.two_pow_pos w)

theorem add_offset_lt (w S d : Nat) : add_offset w S d < 2 ^ w :=
  Nat.mod_lt _ (Nat.two_pow_pos w)

theorem get_lt (w : Nat) (p : Obj) : OffPtrBase.get w p < 2 ^ w := by
  unfold OffPtrBase.get
  split_ifs
  · exact Nat.two_pow_pos w
  · exact add_offset_lt _ _ _

theorem get_of_null_false (w : Nat) (p : Obj) (h : null w p = false) :
    OffPtrBase.get w p = add_offset w p.self p.offset := by
  unfold OffPtrBase.get
  rw [h]
  rfl

theorem get_of_null_true (w : Nat) (p : Obj) (h : null w p = true) :
    OffPtrBase.get w p = nullptr := by
  unfold OffPtrBase.get
  rw [h]
  rfl

theorem get_offset_eq_null_value_iff (w S t : Nat) (hS : S < 2 ^ w) (ht : t < 2 ^ w) :
    get_offset w S t = null_value w ↔ (t + 1) % 2 ^ w = S := by
  have hM : 0 < 2 ^ w := Nat.two_pow_pos w
  unfold get_offset null_value
  rw [mod_of_lt_two_mul (2 ^ w) (t + 2 ^ w - S) (by omega),
    mod_of_lt_two_mul (2 ^ w) (t + 1) (by omega)]
  split_ifs <;> omega

theorem ptr_add_lt (w sz a : Nat) (n : Int) : ptr_add w sz a n < 2 ^ w := by
  unfold ptr_add
  have hM : (0 : Int) < (2 : Int) ^ w := by positivity
  have h1 := Int.emod_lt_of_pos ((a : Int) + n * (sz : Int)) hM
  have h0 := Int.emod_nonneg ((a : Int) + n * (sz : Int)) (ne_of_gt hM)
  have : (((a : Int) + n * (sz : Int)) % (2 : Int) ^ w).toNat < 2 ^ w := by
    rw [Int.toNat_lt h0]
    push_cast
    exact h1
  exact this

theorem ptr_add_eq_add_offset (w sz a : Nat) (n : Int) :
    ptr_add w sz a n = add_offset w a ((n * (sz : Int)) % (2 : Int) ^ w).toNat := by
  have hM : (0 : Int) < (2 : Int) ^ w := by positivity
  have h0 := Int.emod_nonneg (n * (sz : Int)) (ne_of_gt hM)
  have h0a := Int.emod_nonneg ((a : Int) + n * (sz : Int)) (ne_of_gt hM)
  unfold ptr_add add_offset
  apply Int.ofNat_inj.mp
  rw [Int.toNat_of_nonneg h0a]
  push_cast
  rw [Int.toNat_of_nonneg h0, Int.add_emod_emod]

theorem to_signed_emod (w : Nat) (x : Int) (hw : 0 < w)
    (hlo : -(2 : Int) ^ (w - 1) ≤ x) (hhi : x < (2 : Int) ^ (w - 1)) :
    to_signed w (x % (2 : Int) ^ w).toNat = x := by
  have hM : (2 : Int) ^ w = 2 * (2 : Int) ^ (w - 1) := by
    obtain ⟨k, rfl⟩ : ∃ k, w = k + 1 := ⟨w - 1, by omega⟩
    simp [pow_succ, mul_comm]
  have hH : (0 : Int) < (2 : Int) ^ (w - 1) := by positivity
  have hcast : ((2 ^ (w - 1) : Nat) : Int) = (2 : Int) ^ (w - 1) := by push_cast; rfl
  unfold to_signed
  by_cases hx : 0 ≤ x
  · have h1 : x % (2 : Int) ^ w = x := Int.emod_eq_of_lt hx (by omega)
    rw [h1]
    have h2 : (x.toNat : Int) = x := Int.toNat_of_nonneg hx
    have h3 : x.toNat < 2 ^ (w - 1) := by
      rw [Int.toNat_lt hx, hcast]
      exact hhi
    rw [if_pos h3, h2]
  · have h1 : x % (2 : Int) ^ w = x + (2 : Int) ^ w := by
      rw [← Int.add_emod_self]
      exact Int.emod_eq_of_lt (by omega) (by omega)
    rw [h1]
    have hnn : 0 ≤ x + (2 : Int) ^ w := by omega
    have h2 : ((x + (2 : Int) ^ w).toNat : Int) = x + (2 : Int) ^ w := Int.toNat_of_nonneg hnn
    have h3 : ¬ (x + (2 : Int) ^ w).toNat < 2 ^ (w - 1) := by
      rw [Int.toNat_lt hnn, hcast]
      omega
    rw [if_neg h3, h2]
    omega

theorem get_native_ctor (w tmp t : Nat) (htmp : tmp < 2 ^ w) (ht : t < 2 ^ w)
    (hns : (t + 1) % 2 ^ w ≠ tmp) : OffPtrBase.get w (native_ctor w tmp t) = t := by
  by_cases h0 : t = nullptr
  · have hn : null w (native_ctor w tmp t) = true := by simp [native_ctor, h0, null]
    rw [get_of_null_true w _ hn, h0]
  · have hoff : (native_ctor w tmp t).offset = get_offset w tmp t := by simp [native_ctor, h0]
    have hn : null w (native_ctor w tmp t) = false := by
      simp only [null, hoff, beq_eq_false_iff_ne]
      intro h
      exact hns ((get_offset_eq_null_value_iff w tmp t htmp ht).mp h)
    rw [get_of_null_false w _ hn, hoff]
    exact add_offset_get_offset w tmp t htmp ht

end Lemmas

section OffPtrTheorems

open OffPtrBase OffPtr

/-- C1: a non-null offset pointer with displacement `d` stored at `S` resolves to
`(S + d) mod 2^w`; the same displacement stored at `S + D` has the same null-ness, resolves to
`(S + d + D) mod 2^w`, and the distance from the pointer to its target is unchanged. -/
theorem get_relocate (w S d D : Nat) (hS : S < 2 ^ w) (hd : d < 2 ^ w) :
    null w ⟨(S + D) % 2 ^ w, d⟩ = null w ⟨S, d⟩ ∧
    (null w ⟨S, d⟩ = false →
      OffPtrBase.get w ⟨S, d⟩ = (S + d) % 2 ^ w ∧
      OffPtrBase.get w ⟨(S + D) % 2 ^ w, d⟩ = (S + d + D) % 2 ^ w ∧
      OffPtrBase.get w ⟨(S + D) % 2 ^ w, d⟩ = (OffPtrBase.get w ⟨S, d⟩ + D) % 2 ^ w ∧
      get_offset w ((S + D) % 2 ^ w) (OffPtrBase.get w ⟨(S + D) % 2 ^ w, d⟩)
        = get_offset w S (OffPtrBase.get w ⟨S, d⟩)) := by
  refine ⟨rfl, fun hn => ?_⟩
  have hn2 : null w ⟨(S + D) % 2 ^ w, d⟩ = false := hn
  have h1 : OffPtrBase.get w ⟨S, d⟩ = add_offset w S d := by simp [OffPtrBase.get, hn]
  have h2 : OffPtrBase.get w ⟨(S + D) % 2 ^ w, d⟩ = add_offset w ((S + D) % 2 ^ w) d := by
    simp [OffPtrBase.get, hn2]
  have hS2 : (S + D) % 2 ^ w < 2 ^ w := Nat.mod_lt _ (Nat.two_pow_pos w)
  refine ⟨h1, ?_, ?_, ?_⟩
  · rw [h2]
    unfold add_offset
    rw [Nat.mod_add_mod]
    congr 1
    omega
  · rw [h2, h1]
    unfold add_offset
    rw [Nat.mod_add_mod, Nat.mod_add_mod]
    congr 1
    omega
  · rw [h2, h1, get_offset_add_offset w _ d hS2 hd, get_offset_add_offset w S d hS hd]

/-- Witness for C1: a 64-bit pointer at address 4096 with displacement 16, moved by 8192. -/
theorem get_relocate_witness :
    (4096 < 2 ^ 64 ∧ 16 < 2 ^ 64 ∧ null 64 ⟨4096, 16⟩ = false) ∧
    OffPtrBase.get 64 ⟨4096, 16⟩ = 4112 ∧
    OffPtrBase.get 64 ⟨(4096 + 8192) % 2 ^ 64, 16⟩ = 12304 ∧
    get_offset 64 ((4096 + 8192) % 2 ^ 64) (OffPtrBase.get 64 ⟨(4096 + 8192) % 2 ^ 64, 16⟩)
      = get_offset 64 4096 (OffPtrBase.get 64 ⟨4096, 16⟩) :=
  have h := (get_relocate 64 4096 16 8192 (by norm_num) (by norm_num)).2 (by decide)
  ⟨⟨by norm_num, by norm_num, by decide⟩, h.1, h.2.1, h.2.2.2⟩

/-- C2 as stated fails: a 64-bit pointer constructed at address 8 from the non-null native
pointer 7 reports `null()`, and the copy built at address 101 of the non-null pointer stored at
16 with target 100 reports `null()` although its source does not. -/
theorem null_iff_nullptr_counterexample :
    (null 64 (native_ctor 64 8 7) = true ∧ (7 : Nat) ≠ nullptr) ∧
    (null 64 ⟨16, 84⟩ = false ∧ OffPtrBase.get 64 ⟨16, 84⟩ = 100 ∧
      null 64 (copy_ctor 64 101 ⟨16, 84⟩) = true) := by
  decide

/-- C2 (amended): an offset pointer constructed at `S` from `t` reports `null()` iff `t` is the
null native pointer or `t` is the address just before `S` (`t + 1 = S` modulo `2^w`, the one
target whose displacement is the sentinel); a default-constructed pointer reports `null()`; a
copy constructed at `S2` reports `null()` iff its source does or the source's target is the
address just before `S2`. -/
theorem null_iff_nullptr_or_sentinel (w S t S2 : Nat) (src : Obj)
    (hS : S < 2 ^ w) (ht : t < 2 ^ w) (hS2 : S2 < 2 ^ w) :
    (null w (native_ctor w S t) = true ↔ (t = nullptr ∨ (t + 1) % 2 ^ w = S)) ∧
    null w (default_ctor w S) = true ∧
    (null w (copy_ctor w S2 src) = true ↔
      (null w src = true ∨ (OffPtrBase.get w src + 1) % 2 ^ w = S2)) := by
  refine ⟨?_, ?_, ?_⟩
  · unfold native_ctor null
    by_cases h0 : t = nullptr
    · simp [h0]
    · simp only [h0, if_false, false_or, beq_iff_eq]
      exact get_offset_eq_null_value_iff w S t hS ht
  · simp [null, default_ctor]
  · unfold copy_ctor
    cases hn : null w src
    · simp only [Bool.false_eq_true, if_false, false_or]
      simp only [null, beq_iff_eq]
      exact get_offset_eq_null_value_iff w S2 _ hS2 (get_lt w src)
    · simp [null]

/-- Witness for C2 (amended): construction at address 4096 from the native pointer 4200. -/
theorem null_iff_nullptr_or_sentinel_witness :
    (4096 < 2 ^ 64 ∧ 4200 < 2 ^ 64 ∧ 8192 < 2 ^ 64) ∧
    (null 64 (native_ctor 64 4096 4200) = true ↔
      (4200 = nullptr ∨ (4200 + 1) % 2 ^ 64 = 4096)) ∧
    null 64 (default_ctor 64 4096) = true ∧
    (null 64 (copy_ctor 64 8192 ⟨4096, 104⟩) = true ↔
      (null 64 ⟨4096, 104⟩ = true ∨ (OffPtrBase.get 64 ⟨4096, 104⟩ + 1) % 2 ^ 64 = 8192)) :=
  ⟨⟨by norm_num, by norm_num, by norm_num⟩,
    null_iff_nullptr_or_sentinel 64 4096 4200 8192 ⟨4096, 104⟩
      (by norm_num) (by norm_num) (by norm_num)⟩

/-- C4: copying or assigning a pointer `p` into a different address `S2` stores the sentinel
when `p` is null and otherwise `(get(p) - S2) mod 2^w`, which differs from the raw displacement
of `p`; unless that value is the sentinel the destination resolves to the target of `p`; a
self-assignment changes nothing. -/
theorem copy_recomputes_offset (w S2 old : Nat) (p : Obj)
    (hp : p.self < 2 ^ w) (hd : p.offset < 2 ^ w) (hS2 : S2 < 2 ^ w) (hne : S2 ≠ p.self) :
    (copy_ctor w S2 p).offset
      = (if null w p then null_value w else (OffPtrBase.get w p + 2 ^ w - S2) % 2 ^ w) ∧
    (operator_assign w ⟨S2, old⟩ p).offset
      = (if null w p then null_value w else (OffPtrBase.get w p + 2 ^ w - S2) % 2 ^ w) ∧
    (operator_assign w ⟨S2, old⟩ p).self = S2 ∧
    (null w p = false →
      (copy_ctor w S2 p).offset ≠ p.offset ∧ (operator_assign w ⟨S2, old⟩ p).offset ≠ p.offset) ∧
    ((OffPtrBase.get w p + 2 ^ w - S2) % 2 ^ w ≠ null_value w →
      OffPtrBase.get w (copy_ctor w S2 p) = OffPtrBase.get w p ∧
      OffPtrBase.get w (operator_assign w ⟨S2, old⟩ p) = OffPtrBase.get w p) ∧
    operator_assign w p p = p := by
  have hassign : operator_assign w ⟨S2, old⟩ p = copy_ctor w S2 p := by
    simp [operator_assign, copy_ctor, hne]
  rw [hassign]
  refine ⟨?_, ?_, rfl, ?_, ?_, ?_⟩
  · simp [copy_ctor, get_offset]
  · simp [copy_ctor, get_offset]
  · intro hn
    have key : (copy_ctor w S2 p).offset ≠ p.offset := by
      intro h
      simp only [copy_ctor, hn, Bool.false_eq_true, if_false] at h
      have hg : OffPtrBase.get w p = add_offset w p.self p.offset := by
        simp [OffPtrBase.get, hn]
      have h1 : add_offset w S2 (get_offset w S2 (OffPtrBase.get w p)) = OffPtrBase.get w p :=
        add_offset_get_offset w S2 _ hS2 (get_lt w p)
      rw [h, hg] at h1
      unfold add_offset at h1
      rw [mod_of_lt_two_mul _ _ (by omega), mod_of_lt_two_mul _ _ (by omega)] at h1
      split_ifs at h1 <;> omega
    exact ⟨key, key⟩
  · intro hns
    have key : OffPtrBase.get w (copy_ctor w S2 p) = OffPtrBase.get w p := by
      cases hn : null w p
      · have hoff : (copy_ctor w S2 p).offset = get_offset w S2 (OffPtrBase.get w p) := by
          simp [copy_ctor, hn]
        have hnn : null w (copy_ctor w S2 p) = false := by
          simp only [null, hoff, beq_eq_false_iff_ne]
          exact hns
        rw [get_of_null_false w _ hnn, hoff]
        exact add_offset_get_offset w S2 _ hS2 (get_lt w p)
      · have hnn : null w (copy_ctor w S2 p) = true := by
          unfold copy_ctor
          rw [hn]
          simp [null]
        rw [get_of_null_true w _ hnn, get_of_null_true w _ hn]
    exact ⟨key, key⟩
  · simp [operator_assign]

/-- Witness for C4: the pointer at address 4096 with target 4200 copied to address 8192. -/
theorem copy_recomputes_offset_witness :
    (4096 < 2 ^ 64 ∧ 104 < 2 ^ 64 ∧ 8192 < 2 ^ 64 ∧ 8192 ≠ 4096) ∧
    (copy_ctor 64 8192 ⟨4096, 104⟩).offset = 2 ^ 64 - 3992 ∧
    (operator_assign 64 ⟨8192, 7⟩ ⟨4096, 104⟩).offset = 2 ^ 64 - 3992 ∧
    OffPtrBase.get 64 (copy_ctor 64 8192 ⟨4096, 104⟩) = 4200 ∧
    OffPtrBase.get 64 (operator_assign 64 ⟨8192, 7⟩ ⟨4096, 104⟩) = 4200 :=
  have h := copy_recomputes_offset 64 8192 7 ⟨4096, 104⟩
    (by norm_num) (by norm_num) (by norm_num) (by norm_num)
  ⟨⟨by norm_num, by norm_num, by norm_num, by norm_num⟩,
    h.1.trans (by decide), h.2.1.trans (by decide),
    (h.2.2.2.2.1 (by decide)).1.trans (by decide),
    (h.2.2.2.2.1 (by decide)).2.trans (by decide)⟩

/-- C3 as stated fails, in two ways. For `T = char`, a 64-bit pointer stored at 16 with target
100, `n = 3` and the temporary built at address 104, the sum `p + 3` has target 103, one below
its own address, so it is stored as the sentinel and `(p + 3) - p` is `-100`. For
`sizeof(T) = 8` and `n = 2^61` the byte offset `8 n` wraps to 0 and `(p + n) - p` is `0`. -/
theorem plus_minus_cancel_counterexample :
    (operator_diff 64 1 (operator_plus 64 1 104 ⟨16, 84⟩ 3) ⟨16, 84⟩ = -100 ∧
      operator_diff 64 1 (operator_plus 64 1 104 ⟨16, 84⟩ 3) ⟨16, 84⟩ ≠ 3) ∧
    (operator_diff 64 8 (operator_plus 64 8 8192 ⟨4096, 104⟩ (2 ^ 61)) ⟨4096, 104⟩ = 0 ∧
      operator_diff 64 8 (operator_plus 64 8 8192 ⟨4096, 104⟩ (2 ^ 61)) ⟨4096, 104⟩
        ≠ 2 ^ 61) := by
  decide

/-- C3 (amended): `(p + n) - p = n` for every pointer `p`, null or not, whenever the byte
offset `n * sizeof(T)` is representable in `std::ptrdiff_t` and the target of `p + n` is not
the address just before the temporary that holds `p + n`. -/
theorem plus_minus_cancel (w sz tmp : Nat) (p : Obj) (n : Int)
    (hw : 0 < w) (hsz : 0 < sz) (htmp : tmp < 2 ^ w)
    (hlo : -(2 : Int) ^ (w - 1) ≤ n * (sz : Int)) (hhi : n * (sz : Int) < (2 : Int) ^ (w - 1))
    (hns : (ptr_add w sz (OffPtrBase.get w p) n + 1) % 2 ^ w ≠ tmp) :
    operator_diff w sz (operator_plus w sz tmp p n) p = n := by
  have hM : (0 : Int) < (2 : Int) ^ w := by positivity
  unfold operator_diff operator_plus
  rw [get_native_ctor w tmp _ htmp (ptr_add_lt w sz _ n) hns]
  unfold distance
  rw [ptr_add_eq_add_offset, get_offset_add_offset w _ _ (get_lt w p)]
  · rw [to_signed_emod w _ hw hlo hhi]
    exact Int.mul_ediv_cancel n (by exact_mod_cast (Nat.pos_iff_ne_zero.mp hsz))
  · have h0 := Int.emod_nonneg (n * (sz : Int)) (ne_of_gt hM)
    have h1 := Int.emod_lt_of_pos (n * (sz : Int)) hM
    have : ((n * (sz : Int)) % (2 : Int) ^ w).toNat < 2 ^ w := by
      rw [Int.toNat_lt h0]
      push_cast
      exact h1
    exact this

/-- Witness for C3 (amended): an `OffPtr<T>` with `sizeof(T) = 8` at address 4096, target 4200,
moved back by 5 elements into a temporary at address 8192. -/
theorem plus_minus_cancel_witness :
    operator_diff 64 8 (operator_plus 64 8 8192 ⟨4096, 104⟩ (-5)) ⟨4096, 104⟩ = -5 :=
  plus_minus_cancel 64 8 8192 ⟨4096, 104⟩ (-5) (by decide) (by decide) (by norm_num)
    (by norm_num) (by norm_num) (by decide)

end OffPtrTheorems

section VlarrayLemmas

open vlarray

variable {T : Type}

theorem construct_ok (env : Env) (a addr : Nat) (x : T) (w : World T)
    (h : env.construct_throws w.nctor = false) :
    construct env a addr x w =
      (true, { w with
        trace := w.trace ++ [Event.construct a addr x]
        live := Function.update w.live addr (some x)
        nctor := w.nctor + 1 }) := by
  simp [construct, h]

theorem construct_throw (env : Env) (a addr : Nat) (x : T) (w : World T)
    (h : env.construct_throws w.nctor = true) :
    construct env a addr x w =
      (false, { w with
        trace := w.trace ++ [Event.construct_throw a addr x], nctor := w.nctor + 1 }) := by
  simp [construct, h]

theorem allocate_ok (env : Env) (a n : Nat) (w : World T)
    (h : env.alloc_throws w.nalloc = false) :
    allocate env a n w =
      (some (w.next + 1), { w with
        trace := w.trace ++ [Event.allocate a n (w.next + 1)]
        blocks := ⟨a, w.next + 1, n⟩ :: w.blocks
        next := w.next + 1 + n
        nalloc := w.nalloc + 1 }) := by
  simp [allocate, h]

theorem allocate_throw (env : Env) (a n : Nat) (w : World T)
    (h : env.alloc_throws w.nalloc = true) :
    allocate env a n w =
      (none, { w with
        trace := w.trace ++ [Event.allocate_throw a n], nalloc := w.nalloc + 1 }) := by
  simp [allocate, h]

theorem fill_loop_ok (env : Env) (a p : Nat) (x : T) :
    ∀ (k i : Nat) (w : World T),
      (∀ j, j < k → env.construct_throws (w.nctor + j) = false) →
      ∃ w1, fill_loop env a p x k i w = (true, w1) ∧
        w1.trace = w.trace ++ (List.range k).map (fun j => Event.construct a (p + i + j) x) ∧
        (∀ j, j < k → w1.live (p + i + j) = some x) ∧
        (∀ addr, addr < p + i → w1.live addr = w.live addr) ∧
        w1.blocks = w.blocks ∧ w1.next = w.next ∧ w1.nalloc = w.nalloc ∧
        w1.nctor = w.nctor + k := by
  intro k
  induction k with
  | zero =>
    intro i w _
    exact ⟨w, rfl, by simp, by intro j hj; omega, fun _ _ => rfl, rfl, rfl, rfl, rfl⟩
  | succ k ih =>
    intro i w h
    have h0 : env.construct_throws w.nctor = false := by simpa using h 0 (by omega)
    obtain ⟨w1, hw1, htr, hlive, hframe, hb, hn, hna, hnc⟩ :=
      ih (i + 1) { w with
        trace := w.trace ++ [Event.construct a (p + i) x]
        live := Function.update w.live (p + i) (some x)
        nctor := w.nctor + 1 }
        (by
          intro j hj
          have := h (j + 1) (by omega)
          simpa [Nat.add_assoc, Nat.add_comm 1 j] using this)
    refine ⟨w1, ?_, ?_, ?_, ?_, hb, hn, hna, ?_⟩
    · simp only [fill_loop, construct_ok env a (p + i) x w h0]
      exact hw1
    · rw [htr, List.range_succ_eq_map]
      simp [List.map_map, Function.comp_def, Nat.add_assoc, Nat.add_comm 1]
    · intro j hj
      cases j with
      | zero =>
        have := hframe (p + i) (by omega)
        simpa using this
      | succ j =>
        have := hlive j (by omega)
        rw [← this]
        congr 1
        omega
    · intro addr haddr
      rw [hframe addr (by omega)]
      simp [Function.update, Nat.ne_of_lt haddr]
    · rw [hnc]
      simp
      omega

theorem Frame.refl (bound : Nat) (w : World T) : Frame bound w w :=
  ⟨fun _ _ => rfl, ⟨[], by simp, by simp⟩, fun _ hb _ => hb⟩

theorem Frame.trans {bound : Nat} {w w1 w2 : World T}
    (h1 : Frame bound w w1) (h2 : Frame bound w1 w2) : Frame bound w w2 := by
  obtain ⟨hl1, ⟨ev1, ht1, hd1⟩, hb1⟩ := h1
  obtain ⟨hl2, ⟨ev2, ht2, hd2⟩, hb2⟩ := h2
  refine ⟨fun addr ha => (hl2 addr ha).trans (hl1 addr ha), ⟨ev1 ++ ev2, ?_, ?_⟩, ?_⟩
  · rw [ht2, ht1, List.append_assoc]
  · intro al addr hmem
    rcases List.mem_append.mp hmem with h | h
    · exact hd1 al addr h
    · exact hd2 al addr h
  · intro b hb hlt
    exact hb2 b (hb1 b hb hlt) hlt

theorem frame_allocate (bound : Nat) (env : Env) (a n : Nat) (w : World T) :
    Frame bound w (allocate env a n w).2 := by
  unfold allocate
  split_ifs
  · exact ⟨fun _ _ => rfl, ⟨[Event.allocate_throw a n], rfl, by simp⟩, fun _ hb _ => hb⟩
  · exact ⟨fun _ _ => rfl, ⟨[Event.allocate a n (w.next + 1)], rfl, by simp⟩,
      fun _ hb _ => List.mem_cons_of_mem _ hb⟩

theorem frame_construct (bound : Nat) (env : Env) (a addr : Nat) (x : T) (w : World T)
    (h : bound ≤ addr) : Frame bound w (construct env a addr x w).2 := by
  unfold construct
  split_ifs
  · exact ⟨fun _ _ => rfl, ⟨[Event.construct_throw a addr x], rfl, by simp⟩, fun _ hb _ => hb⟩
  · refine ⟨?_, ⟨[Event.construct a addr x], rfl, by simp⟩, fun _ hb _ => hb⟩
    intro ad had
    have hne : ad ≠ addr := by omega
    simp [Function.update, hne]

theorem frame_destroy (bound a addr : Nat) (w : World T) (h : bound ≤ addr) :
    Frame bound w (destroy a addr w) := by
  refine ⟨?_, ⟨[Event.destroy a addr], rfl, ?_⟩, fun _ hb _ => hb⟩
  · intro ad had
    have hne : ad ≠ addr := by omega
    simp [destroy, Function.update, hne]
  · intro al ad hmem
    simp only [List.mem_singleton, Event.destroy.injEq] at hmem
    omega

theorem frame_deallocate (bound a p n : Nat) (w : World T) (h : bound ≤ p) :
    Frame bound w (deallocate a p n w) := by
  refine ⟨fun _ _ => rfl, ⟨[Event.deallocate a p n], rfl, by simp⟩, ?_⟩
  intro b hb hlt
  have hne : b.ptr ≠ p := by omega
  simp [deallocate, hb, hne]

theorem frame_internal_construct_unwind (bound a p : Nat) (h : bound ≤ p) :
    ∀ (current : Nat) (w : World T), Frame bound w (internal_construct_unwind a p current w) := by
  intro current
  induction current with
  | zero =>
    intro w
    exact frame_destroy bound a (p + 0) w (by omega)
  | succ c ih =>
    intro w
    exact Frame.trans (frame_destroy bound a (p + (c + 1)) w (by omega)) (ih _)

theorem frame_internal_construct_loop (bound : Nat) (env : Env) (a p src : Nat)
    (h : bound ≤ p) :
    ∀ (k i current : Nat) (w : World T),
      (∀ w1, internal_construct_loop env a p src k i current w = LoopResult.done w1 →
        Frame bound w w1) ∧
      (∀ cur w1, internal_construct_loop env a p src k i current w = LoopResult.threw cur w1 →
        Frame bound w w1) := by
  intro k
  induction k with
  | zero =>
    intro i current w
    constructor
    · intro w1 hw1
      simp only [internal_construct_loop, LoopResult.done.injEq] at hw1
      subst hw1
      exact Frame.refl bound w
    · intro cur w1 hw1
      simp [internal_construct_loop] at hw1
  | succ k ih =>
    intro i current w
    cases hx : w.live (src + i) with
    | none => simp [internal_construct_loop, hx]
    | some x =>
      have hf := frame_construct bound env a (p + i) x w (by omega)
      cases ht : env.construct_throws w.nctor with
      | true =>
        rw [construct_throw env a (p + i) x w ht] at hf
        simp only [internal_construct_loop, hx, construct_throw env a (p + i) x w ht]
        constructor
        · intro w1 hw1
          simp at hw1
        · intro cur w1 hw1
          simp only [LoopResult.threw.injEq] at hw1
          rw [← hw1.2]
          exact hf
      | false =>
        rw [construct_ok env a (p + i) x w ht] at hf
        simp only [internal_construct_loop, hx, construct_ok env a (p + i) x w ht]
        constructor
        · intro w1 hw1
          exact Frame.trans hf ((ih _ _ _).1 w1 hw1)
        · intro cur w1 hw1
          exact Frame.trans hf ((ih _ _ _).2 cur w1 hw1)

theorem frame_internal_construct (env : Env) (a src n : Nat) (w : World T) :
    (∀ p w1, internal_construct env a src n w = Result.ret p w1 →
      Frame (w.next + 1) w w1 ∧ p = w.next + 1) ∧
    (∀ e w1, internal_construct env a src n w = Result.throw e w1 →
      Frame (w.next + 1) w w1) := by
  have hfa := frame_allocate (w.next + 1) env a n w
  cases ht : env.alloc_throws w.nalloc with
  | true =>
    rw [allocate_throw env a n w ht] at hfa
    simp only [internal_construct, allocate_throw env a n w ht]
    constructor
    · intro p w1 hw1
      simp at hw1
    · intro e w1 hw1
      simp only [Result.throw.injEq] at hw1
      rw [← hw1.2]
      exact hfa
  | false =>
    rw [allocate_ok env a n w ht] at hfa
    simp only [internal_construct, allocate_ok env a n w ht]
    have hloop := frame_internal_construct_loop (w.next + 1) env a (w.next + 1) src
      (Nat.le_refl _) n 0 0
      { w with
        trace := w.trace ++ [Event.allocate a n (w.next + 1)]
        blocks := ⟨a, w.next + 1, n⟩ :: w.blocks
        next := w.next + 1 + n
        nalloc := w.nalloc + 1 }
    generalize internal_construct_loop env a (w.next + 1) src n 0 0
      { w with
        trace := w.trace ++ [Event.allocate a n (w.next + 1)]
        blocks := ⟨a, w.next + 1, n⟩ :: w.blocks
        next := w.next + 1 + n
        nalloc := w.nalloc + 1 } = res at hloop
    cases res with
    | done w2 =>
      constructor
      · intro p w1 hw1
        simp only [Result.ret.injEq] at hw1
        rw [← hw1.1, ← hw1.2]
        exact ⟨Frame.trans hfa (hloop.1 w2 rfl), rfl⟩
      · intro e w1 hw1
        simp at hw1
    | threw cur w2 =>
      constructor
      · intro p w1 hw1
        simp at hw1
      · intro e w1 hw1
        simp only [Result.throw.injEq] at hw1
        rw [← hw1.2]
        exact Frame.trans hfa (Frame.trans (hloop.2 cur w2 rfl)
          (Frame.trans (frame_internal_construct_unwind _ a _ (Nat.le_refl _) cur w2)
            (frame_deallocate _ a _ n _ (Nat.le_refl _))))
    | undefined =>
      constructor
      · intro p w1 hw1
        simp at hw1
      · intro e w1 hw1
        simp at hw1

theorem internal_construct_loop_ok (env : Env) (a p src : Nat) :
    ∀ (k i current : Nat) (w : World T),
      (∀ j, j < k → w.live (src + i + j) ≠ none) →
      (∀ j, j < k → env.construct_throws (w.nctor + j) = false) →
      src + (i + k) ≤ p →
      ∃ w1, internal_construct_loop env a p src k i current w = LoopResult.done w1 ∧
        (∀ addr, addr < p + i → w1.live addr = w.live addr) ∧
        (∀ j, j < k → w1.live (p + i + j) = w.live (src + i + j)) := by
  intro k
  induction k with
  | zero =>
    intro i current w _ _ _
    exact ⟨w, rfl, fun _ _ => rfl, by intro j hj; omega⟩
  | succ k ih =>
    intro i current w hl hc hsp
    have h0 : env.construct_throws w.nctor = false := by simpa using hc 0 (by omega)
    obtain ⟨x, hx⟩ : ∃ x, w.live (src + i) = some x := by
      have := hl 0 (by omega)
      rw [Nat.add_zero] at this
      exact Option.ne_none_iff_exists'.mp this
    have hupd : ∀ addr, addr ≠ p + i →
        Function.update w.live (p + i) (some x) addr = w.live addr := by
      intro addr hne
      simp [Function.update, hne]
    obtain ⟨w1, hw1, hframe, hval⟩ :=
      ih (i + 1) (current + 1) { w with
        trace := w.trace ++ [Event.construct a (p + i) x]
        live := Function.update w.live (p + i) (some x)
        nctor := w.nctor + 1 }
        (by
          intro j hj
          show Function.update w.live (p + i) (some x) (src + (i + 1) + j) ≠ none
          rw [hupd _ (by omega)]
          have := hl (j + 1) (by omega)
          rwa [show src + i + (j + 1) = src + (i + 1) + j by omega] at this)
        (by
          intro j hj
          have := hc (j + 1) (by omega)
          rwa [show w.nctor + (j + 1) = w.nctor + 1 + j by omega] at this)
        (by omega)
    refine ⟨w1, ?_, ?_, ?_⟩
    · simp only [internal_construct_loop, hx, construct_ok env a (p + i) x w h0]
      exact hw1
    · intro addr haddr
      rw [hframe addr (by omega)]
      exact hupd addr (by omega)
    · intro j hj
      cases j with
      | zero =>
        have h1 := hframe (p + i) (by omega)
        rw [Nat.add_zero, Nat.add_zero, h1, hx]
        simp [Function.update]
      | succ j =>
        have h1 := hval j (by omega)
        rw [show p + i + (j + 1) = p + (i + 1) + j by omega, h1,
          show src + i + (j + 1) = src + (i + 1) + j by omega]
        exact hupd _ (by omega)

theorem fill_loop_throw (env : Env) (a p : Nat) (x : T) :
    ∀ (k m i : Nat) (w : World T),
      (∀ j, j < k → env.construct_throws (w.nctor + j) = false) →
      env.construct_throws (w.nctor + k) = true →
      ∃ w1, fill_loop env a p x (k + 1 + m) i w = (false, w1) ∧
        w1.trace = w.trace ++ (List.range k).map (fun j => Event.construct a (p + i + j) x)
          ++ [Event.construct_throw a (p + i + k) x] ∧
        (∀ j, j < k → w1.live (p + i + j) = some x) ∧
        (∀ addr, addr < p + i → w1.live addr = w.live addr) ∧
        w1.blocks = w.blocks := by
  intro k
  induction k with
  | zero =>
    intro m i w _ ht
    rw [Nat.add_zero] at ht
    refine ⟨{ w with
      trace := w.trace ++ [Event.construct_throw a (p + i) x], nctor := w.nctor + 1 },
      ?_, by simp, by intro j hj; omega, fun _ _ => rfl, rfl⟩
    rw [show 0 + 1 + m = m + 1 by omega]
    simp only [fill_loop, construct_throw env a (p + i) x w ht]
  | succ k ih =>
    intro m i w hc ht
    have h0 : env.construct_throws w.nctor = false := by simpa using hc 0 (by omega)
    obtain ⟨w1, hw1, htr, hlive, hframe, hb⟩ :=
      ih m (i + 1) { w with
        trace := w.trace ++ [Event.construct a (p + i) x]
        live := Function.update w.live (p + i) (some x)
        nctor := w.nctor + 1 }
        (by
          intro j hj
          have := hc (j + 1) (by omega)
          rwa [show w.nctor + (j + 1) = w.nctor + 1 + j by omega] at this)
        (by rwa [show w.nctor + (k + 1) = w.nctor + 1 + k by omega] at ht)
    refine ⟨w1, ?_, ?_, ?_, ?_, hb⟩
    · rw [show k + 1 + 1 + m = (k + 1 + m) + 1 by omega]
      simp only [fill_loop, construct_ok env a (p + i) x w h0]
      exact hw1
    · rw [htr, List.range_succ_eq_map]
      simp [List.map_map, Function.comp_def, Nat.add_assoc, Nat.add_comm 1]
    · intro j hj
      cases j with
      | zero =>
        have := hframe (p + i) (by omega)
        simpa using this
      | succ j =>
        have := hlive j (by omega)
        rwa [show p + (i + 1) + j = p + i + (j + 1) by omega] at this
    · intro addr haddr
      rw [hframe addr (by omega)]
      simp [Function.update, Nat.ne_of_lt haddr]

/-- The fill constructor for any count: when the construction of element `k < n` is the
first to fail, the exception leaves with the `k` constructed elements alive and the block
allocated, and the calls made are `allocate`, `k` successful `construct` calls and the failed
one: no `destroy`, no `deallocate`. -/
theorem ctor_fill_throw_no_rollback (env : Env) (self alloc n k : Nat) (x : T) (w : World T)
    (hk : k < n)
    (ha : env.alloc_throws w.nalloc = false)
    (hc : ∀ j, j < k → env.construct_throws (w.nctor + j) = false)
    (ht : env.construct_throws (w.nctor + k) = true) :
    ∃ w1, ctor_fill env self alloc n x w = Result.throw Exn.element w1 ∧
      w1.trace = w.trace ++ Event.allocate alloc n (w.next + 1) ::
        ((List.range k).map (fun j => Event.construct alloc (w.next + 1 + j) x)
          ++ [Event.construct_throw alloc (w.next + 1 + k) x]) ∧
      (∀ j, j < k → w1.live (w.next + 1 + j) = some x) ∧
      (⟨alloc, w.next + 1, n⟩ : Block) ∈ w1.blocks := by
  obtain ⟨m, rfl⟩ : ∃ m, n = k + 1 + m := ⟨n - (k + 1), by omega⟩
  obtain ⟨w1, hw1, htr, hlive, -, hb⟩ :=
    fill_loop_throw env alloc (w.next + 1) x k m 0
      { w with
        trace := w.trace ++ [Event.allocate alloc (k + 1 + m) (w.next + 1)]
        blocks := ⟨alloc, w.next + 1, k + 1 + m⟩ :: w.blocks
        next := w.next + 1 + (k + 1 + m)
        nalloc := w.nalloc + 1 } hc ht
  refine ⟨w1, ?_, ?_, ?_, ?_⟩
  · simp only [ctor_fill, allocate_ok env alloc (k + 1 + m) w ha, hw1]
  · rw [htr]
    simp
  · intro j hj
    exact hlive j hj
  · rw [hb]
    exact List.mem_cons_self _ _

theorem internal_construct_unwind_trace (a p : Nat) :
    ∀ (current : Nat) (w : World T),
      (internal_construct_unwind a p current w).trace
        = w.trace ++ (List.range (current + 1)).reverse.map (fun j => Event.destroy a (p + j)) := by
  intro current
  induction current with
  | zero =>
    intro w
    rfl
  | succ c ih =>
    intro w
    simp only [internal_construct_unwind]
    rw [ih, List.range_succ (c + 1), List.reverse_append]
    simp [destroy]

theorem internal_construct_loop_throw (env : Env) (a p src : Nat) :
    ∀ (k m i current : Nat) (w : World T),
      (∀ j, j ≤ k → w.live (src + i + j) ≠ none) →
      (∀ j, j < k → env.construct_throws (w.nctor + j) = false) →
      env.construct_throws (w.nctor + k) = true →
      src + (i + k + 1) ≤ p →
      ∃ w1, internal_construct_loop env a p src (k + 1 + m) i current w
          = LoopResult.threw (current + k) w1 ∧
        (∀ addr, addr < p + i ∨ p + i + k ≤ addr → w1.live addr = w.live addr) := by
  intro k
  induction k with
  | zero =>
    intro m i current w hl _ ht _
    rw [Nat.add_zero] at ht
    obtain ⟨x, hx⟩ : ∃ x, w.live (src + i) = some x := by
      have := hl 0 (by omega)
      rw [Nat.add_zero] at this
      exact Option.ne_none_iff_exists'.mp this
    refine ⟨{ w with
      trace := w.trace ++ [Event.construct_throw a (p + i) x], nctor := w.nctor + 1 },
      ?_, fun _ _ => rfl⟩
    rw [show 0 + 1 + m = m + 1 by omega]
    simp only [internal_construct_loop, hx, construct_throw env a (p + i) x w ht, Nat.add_zero]
  | succ k ih =>
    intro m i current w hl hc ht hsp
    have h0 : env.construct_throws w.nctor = false := by simpa using hc 0 (by omega)
    obtain ⟨x, hx⟩ : ∃ x, w.live (src + i) = some x := by
      have := hl 0 (by omega)
      rw [Nat.add_zero] at this
      exact Option.ne_none_iff_exists'.mp this
    have hupd : ∀ addr, addr ≠ p + i →
        Function.update w.live (p + i) (some x) addr = w.live addr := by
      intro addr hne
      simp [Function.update, hne]
    obtain ⟨w1, hw1, hframe⟩ :=
      ih m (i + 1) (current + 1) { w with
        trace := w.trace ++ [Event.construct a (p + i) x]
        live := Function.update w.live (p + i) (some x)
        nctor := w.nctor + 1 }
        (by
          intro j hj
          show Function.update w.live (p + i) (some x) (src + (i + 1) + j) ≠ none
          rw [hupd _ (by omega)]
          have := hl (j + 1) (by omega)
          rwa [show src + i + (j + 1) = src + (i + 1) + j by omega] at this)
        (by
          intro j hj
          have := hc (j + 1) (by omega)
          rwa [show w.nctor + (j + 1) = w.nctor + 1 + j by omega] at this)
        (by rwa [show w.nctor + (k + 1) = w.nctor + 1 + k by omega] at ht)
        (by omega)
    refine ⟨w1, ?_, ?_⟩
    · rw [show k + 1 + 1 + m = (k + 1 + m) + 1 by omega]
      simp only [internal_construct_loop, hx, construct_ok env a (p + i) x w h0]
      rw [hw1, show current + 1 + k = current + (k + 1) by omega]
    · intro addr haddr
      rw [hframe addr (by omega)]
      exact hupd addr (by omega)

/-- The handler of `internal_construct` for any count: when the construction of element
`k < n` is the first to fail, no element was constructed in slot `k`, and the calls that follow
the failed `construct` are `destroy` on the slots `k, k - 1, ..., 0`, which is `k + 1` calls,
and then one `deallocate`. -/
theorem internal_construct_throw_unwinds_from_failed_slot (env : Env) (a src n k : Nat)
    (w : World T) (hk : k < n) (hown : src + n ≤ w.next)
    (hlive : ∀ j, j ≤ k → w.live (src + j) ≠ none)
    (ha : env.alloc_throws w.nalloc = false)
    (hc : ∀ j, j < k → env.construct_throws (w.nctor + j) = false)
    (ht : env.construct_throws (w.nctor + k) = true) :
    ∃ w2 w1 : World T, internal_construct env a src n w = Result.throw Exn.element w1 ∧
      w2.live (w.next + 1 + k) = w.live (w.next + 1 + k) ∧
      w1.trace = w2.trace
        ++ (List.range (k + 1)).reverse.map (fun j => Event.destroy a (w.next + 1 + j))
        ++ [Event.deallocate a (w.next + 1) n] := by
  obtain ⟨m, rfl⟩ : ∃ m, n = k + 1 + m := ⟨n - (k + 1), by omega⟩
  obtain ⟨w2, hw2, hframe⟩ :=
    internal_construct_loop_throw env a (w.next + 1) src k m 0 0
      { w with
        trace := w.trace ++ [Event.allocate a (k + 1 + m) (w.next + 1)]
        blocks := ⟨a, w.next + 1, k + 1 + m⟩ :: w.blocks
        next := w.next + 1 + (k + 1 + m)
        nalloc := w.nalloc + 1 }
      (by
        intro j hj
        have := hlive j hj
        simpa using this)
      hc ht (by omega)
  refine ⟨w2, deallocate a (w.next + 1) (k + 1 + m)
    (internal_construct_unwind a (w.next + 1) (0 + k) w2), ?_, ?_, ?_⟩
  · simp only [internal_construct, allocate_ok env a (k + 1 + m) w ha, hw2]
  · exact hframe _ (Or.inr (by omega))
  · simp only [deallocate, Nat.zero_add]
    rw [internal_construct_unwind_trace]

theorem destroy_ub_of_dead (a addr : Nat) (w : World T) (h : w.live addr = none) :
    (destroy a addr w).ub = true := by
  simp [destroy, h]

theorem destroy_ub_of_ub (a addr : Nat) (w : World T) (h : w.ub = true) :
    (destroy a addr w).ub = true := by
  simp [destroy, h]

theorem destroy_ub_of_alive (a addr : Nat) (w : World T) (h : w.live addr ≠ none) :
    (destroy a addr w).ub = w.ub := by
  obtain ⟨x, hx⟩ := Option.ne_none_iff_exists'.mp h
  simp [destroy, hx]

theorem internal_construct_unwind_ub_of_ub (a p : Nat) :
    ∀ (current : Nat) (w : World T), w.ub = true →
      (internal_construct_unwind a p current w).ub = true := by
  intro current
  induction current with
  | zero =>
    intro w h
    exact destroy_ub_of_ub a (p + 0) w h
  | succ c ih =>
    intro w h
    exact ih _ (destroy_ub_of_ub a (p + (c + 1)) w h)

theorem internal_construct_unwind_ub_of_dead (a p current : Nat) (w : World T)
    (h : w.live (p + current) = none) :
    (internal_construct_unwind a p current w).ub = true := by
  cases current with
  | zero => exact destroy_ub_of_dead a (p + 0) w h
  | succ c =>
    exact internal_construct_unwind_ub_of_ub a p c _ (destroy_ub_of_dead a (p + (c + 1)) w h)

/-- The failure path of `internal_construct` for any count: when the construction of element
`k < n` is the first to fail and nothing is alive in slot `k` of the fresh block, the handler
runs a destructor on that raw slot, so the exception leaves a run that is undefined. -/
theorem internal_construct_element_failure_sets_ub (env : Env) (a src n k : Nat)
    (w : World T) (hk : k < n) (hown : src + n ≤ w.next)
    (hlive : ∀ j, j ≤ k → w.live (src + j) ≠ none)
    (hdead : w.live (w.next + 1 + k) = none)
    (ha : env.alloc_throws w.nalloc = false)
    (hc : ∀ j, j < k → env.construct_throws (w.nctor + j) = false)
    (ht : env.construct_throws (w.nctor + k) = true) :
    ∃ w1 : World T, internal_construct env a src n w = Result.throw Exn.element w1 ∧
      w1.ub = true := by
  obtain ⟨m, rfl⟩ : ∃ m, n = k + 1 + m := ⟨n - (k + 1), by omega⟩
  obtain ⟨w2, hw2, hframe⟩ :=
    internal_construct_loop_throw env a (w.next + 1) src k m 0 0
      { w with
        trace := w.trace ++ [Event.allocate a (k + 1 + m) (w.next + 1)]
        blocks := ⟨a, w.next + 1, k + 1 + m⟩ :: w.blocks
        next := w.next + 1 + (k + 1 + m)
        nalloc := w.nalloc + 1 }
      (by
        intro j hj
        have := hlive j hj
        simpa using this)
      hc ht (by omega)
  have hd : w2.live (w.next + 1 + (0 + k)) = none := by
    rw [hframe _ (Or.inr (by omega)), Nat.zero_add]
    exact hdead
  refine ⟨deallocate a (w.next + 1) (k + 1 + m)
    (internal_construct_unwind a (w.next + 1) (0 + k) w2), ?_, ?_⟩
  · simp only [internal_construct, allocate_ok env a (k + 1 + m) w ha, hw2]
  · exact internal_construct_unwind_ub_of_dead a (w.next + 1) (0 + k) w2 hd

/-- The allocation-failure half of the guarantee of copy-assignment: when `allocate` throws,
`a = b` between distinct arrays lets `bad_alloc` out with `a` as it was and with nothing done
but the failed `allocate` call. -/
theorem operator_assign_bad_alloc_leaves_target (env : Env) (pocca : Bool) (this rhs : Obj)
    (w : World T) (hne : this.self ≠ rhs.self) (ha : env.alloc_throws w.nalloc = true) :
    operator_assign env pocca this rhs w
      = (this, Result.throw Exn.bad_alloc
          { w with
            trace := w.trace ++
              [Event.allocate_throw (if pocca then rhs.r.alloc else this.r.alloc) (size rhs)]
            nalloc := w.nalloc + 1 }) := by
  have hne2 : ¬ this.self = rhs.self := hne
  cases pocca with
  | true =>
    simp only [operator_assign, hne2, if_false, if_true, internal_construct,
      allocate_throw env rhs.r.alloc (size rhs) w ha]
  | false =>
    simp only [operator_assign, hne2, if_false, Bool.false_eq_true, internal_construct,
      allocate_throw env this.r.alloc (size rhs) w ha]

end VlarrayLemmas

section VlarrayTheorems

open vlarray

/-- C8: when allocation and every construction succeed, the fill constructor returns an array
of size `n` whose every element equals `x`, after exactly one `allocate` call with count `n`
followed by `n` `construct` calls, one on each slot. -/
theorem ctor_fill_ok {T : Type} (env : Env) (self alloc n : Nat) (x : T) (w : World T)
    (ha : env.alloc_throws w.nalloc = false)
    (hc : ∀ j, j < n → env.construct_throws (w.nctor + j) = false) :
    ∃ v w1, ctor_fill env self alloc n x w = Result.ret v w1 ∧
      size v = n ∧
      (∀ i, i < n → operator_index v i w1 = some x) ∧
      w1.trace = w.trace ++ Event.allocate alloc n (data v) ::
        (List.range n).map (fun i => Event.construct alloc (data v + i) x) := by
  obtain ⟨w1, hw1, htr, hlive, -, -, -, -, -⟩ :=
    fill_loop_ok env alloc (w.next + 1) x n 0
      { w with
        trace := w.trace ++ [Event.allocate alloc n (w.next + 1)]
        blocks := ⟨alloc, w.next + 1, n⟩ :: w.blocks
        next := w.next + 1 + n
        nalloc := w.nalloc + 1 } hc
  refine ⟨⟨self, ⟨alloc, w.next + 1, n⟩⟩, w1, ?_, rfl, ?_, ?_⟩
  · simp only [ctor_fill, allocate_ok env alloc n w ha, hw1]
  · intro i hi
    exact hlive i hi
  · rw [htr]
    simp [data]

/-- Witness for C8: four elements equal to 42 from the allocator 7 in the initial world. -/
theorem ctor_fill_ok_witness :
    ∃ v w1, ctor_fill Env.never 1000 7 4 (42 : Nat) (World.init Nat) = Result.ret v w1 ∧
      size v = 4 ∧
      (∀ i, i < 4 → operator_index v i w1 = some 42) ∧
      w1.trace = (World.init Nat).trace ++ Event.allocate 7 4 (data v) ::
        (List.range 4).map (fun i => Event.construct 7 (data v + i) 42) :=
  ctor_fill_ok Env.never 1000 7 4 42 (World.init Nat) rfl (fun _ _ => rfl)

/-- C5 fails on the code: with `n = 5` and the construction of the 3rd element failing, the
fill constructor lets the exception out after `allocate` and two successful `construct` calls
without any `destroy` or `deallocate` call: the two elements stay alive and the block of five
stays allocated. -/
theorem ctor_fill_throw_leaks :
    ∃ w1, ctor_fill (Env.construct_fails_at 2) 1000 7 5 (42 : Nat) (World.init Nat)
        = Result.throw Exn.element w1 ∧
      w1.trace = [Event.allocate 7 5 1, Event.construct 7 1 42, Event.construct 7 2 42,
        Event.construct_throw 7 3 42] ∧
      w1.live 1 = some 42 ∧ w1.live 2 = some 42 ∧ w1.blocks = [⟨7, 1, 5⟩] :=
  ⟨_, rfl, rfl, rfl, rfl, rfl⟩

/-- C6 fails on the code: copying the three elements of `b` with the construction of element
`k = 1` failing, `internal_construct` calls `destroy` on slot 1 (address 9), which was never
constructed, before slot 0 (address 8): the handler destroys `k + 1` slots, not `k`. -/
theorem internal_construct_destroys_failed_slot :
    ∃ w1, internal_construct (Env.construct_fails_at 6) 9 4 3 World.two_arrays
        = Result.throw Exn.element w1 ∧
      w1.trace = World.two_arrays.trace ++
        [Event.allocate 9 3 8, Event.construct 9 8 42, Event.construct_throw 9 9 42,
          Event.destroy 9 9, Event.destroy 9 8, Event.deallocate 9 8 3] :=
  ⟨_, rfl, rfl⟩

/-- C7 fails on the code: in `a = b` with the copy of the second of the three elements of `b`
failing, under either value of `propagate_on_container_copy_assignment`, the handler of
`internal_construct` runs `destroy` on slot 1 of the new block (address 9), where no element
was ever constructed, before the exception reaches the caller: the failure path runs a
destructor on raw storage, so the run is undefined behaviour and no state of `a` is
guaranteed. -/
theorem operator_assign_element_failure_is_undefined :
    World.two_arrays.ub = false ∧ World.two_arrays.live 9 = none ∧
    (∃ wf : World Nat,
      operator_assign (Env.construct_fails_at 6) true Obj.demo_a Obj.demo_b World.two_arrays
        = (Obj.demo_a, Result.throw Exn.element wf) ∧
      wf.trace = World.two_arrays.trace ++
        [Event.allocate 9 3 8, Event.construct 9 8 42, Event.construct_throw 9 9 42,
          Event.destroy 9 9, Event.destroy 9 8, Event.deallocate 9 8 3] ∧
      wf.ub = true) ∧
    (∃ wf : World Nat,
      operator_assign (Env.construct_fails_at 6) false Obj.demo_a Obj.demo_b World.two_arrays
        = (Obj.demo_a, Result.throw Exn.element wf) ∧
      wf.trace = World.two_arrays.trace ++
        [Event.allocate 7 3 8, Event.construct 7 8 42, Event.construct_throw 7 9 42,
          Event.destroy 7 9, Event.destroy 7 8, Event.deallocate 7 8 3] ∧
      wf.ub = true) :=
  ⟨rfl, rfl, ⟨_, rfl, rfl, rfl⟩, ⟨_, rfl, rfl, rfl⟩⟩

/-- C10: move-construction without an allocator argument gives the new array the buffer, the
size and the allocator of the source, leaves the source with size 0 and a null pointer, and
makes no call at all: the world (calls made, elements alive, blocks allocated) is the same. -/
theorem ctor_move_adopts {T : Type} (self : Nat) (a : Obj) (w : World T) :
    data (ctor_move self a w).1 = data a ∧
    size (ctor_move self a w).1 = size a ∧
    get_allocator (ctor_move self a w).1 = get_allocator a ∧
    size (ctor_move self a w).2.1 = 0 ∧
    data (ctor_move self a w).2.1 = 0 ∧
    (ctor_move self a w).2.1.self = a.self ∧
    (ctor_move self a w).2.2 = w ∧
    (ctor_move self a w).2.2.trace = w.trace :=
  ⟨rfl, rfl, rfl, rfl, rfl, rfl, rfl, rfl⟩

end VlarrayTheorems

section ClearLemmas

open vlarray

variable {T : Type}

theorem internal_clear_loop_spec (a dat sz : Nat) :
    ∀ (k i : Nat) (w : World T), i + k = sz →
      (internal_clear_loop a dat sz k i w).trace
        = w.trace ++ (List.range k).reverse.map (fun j => Event.destroy a (dat + j)) ∧
      (∀ addr, (internal_clear_loop a dat sz k i w).live addr
        = if dat ≤ addr ∧ addr < dat + k then none else w.live addr) ∧
      (internal_clear_loop a dat sz k i w).blocks = w.blocks ∧
      (internal_clear_loop a dat sz k i w).next = w.next := by
  intro k
  induction k with
  | zero =>
    intro i w _
    refine ⟨by simp [internal_clear_loop], ?_, rfl, rfl⟩
    intro addr
    have h0 : ¬ (dat ≤ addr ∧ addr < dat + 0) := by omega
    rw [if_neg h0]
    rfl
  | succ k ih =>
    intro i w h
    have hk : sz - i - 1 = k := by omega
    obtain ⟨htr, hlive, hb, hn⟩ := ih (i + 1) (destroy a (dat + k) w) (by omega)
    simp only [internal_clear_loop, hk]
    refine ⟨?_, ?_, ?_, ?_⟩
    · rw [htr, List.range_succ, List.reverse_append]
      simp [destroy]
    · intro addr
      rw [hlive addr]
      by_cases h1 : dat ≤ addr ∧ addr < dat + k
      · have h2 : dat ≤ addr ∧ addr < dat + (k + 1) := by omega
        rw [if_pos h1, if_pos h2]
      · rw [if_neg h1]
        by_cases h3 : addr = dat + k
        · have h2 : dat ≤ addr ∧ addr < dat + (k + 1) := by omega
          rw [if_pos h2, h3]
          simp [destroy]
        · have h2 : ¬ (dat ≤ addr ∧ addr < dat + (k + 1)) := by omega
          rw [if_neg h2]
          simp [destroy, Function.update, h3]
    · rw [hb]
      rfl
    · rw [hn]
      rfl

theorem internal_clear_of_empty (v : Obj) (w : World T) (h : size v = 0) :
    internal_clear v w = w := by
  have : empty v = true := by simpa [empty, size] using h
  simp [internal_clear, this]

theorem internal_clear_of_nonempty (v : Obj) (w : World T) (h : size v ≠ 0) :
    (internal_clear v w).trace
      = w.trace
        ++ (List.range (size v)).reverse.map (fun j => Event.destroy v.r.alloc (data v + j))
        ++ [Event.deallocate v.r.alloc (data v) (size v)] ∧
    (∀ addr, (internal_clear v w).live addr
      = if data v ≤ addr ∧ addr < data v + size v then none else w.live addr) ∧
    (internal_clear v w).blocks = w.blocks.filter (fun b => b.ptr ≠ data v) ∧
    (internal_clear v w).next = w.next := by
  have he : empty v = false := by simpa [empty, size] using h
  obtain ⟨htr, hlive, hb, hn⟩ :=
    internal_clear_loop_spec v.r.alloc (data v) (size v) (size v) 0 w (by omega)
  simp only [internal_clear, he, Bool.false_eq_true, if_false]
  refine ⟨?_, ?_, ?_, ?_⟩
  · simp only [deallocate, htr]
    rfl
  · intro addr
    exact hlive addr
  · simp only [deallocate, hb]
    rfl
  · exact hn

theorem internal_clear_live (v : Obj) (w : World T) (addr : Nat) :
    (internal_clear v w).live addr
      = if data v ≤ addr ∧ addr < data v + size v then none else w.live addr := by
  by_cases h : size v = 0
  · rw [internal_clear_of_empty v w h]
    have : ¬ (data v ≤ addr ∧ addr < data v + size v) := by omega
    rw [if_neg this]
  · exact (internal_clear_of_nonempty v w h).2.1 addr

end ClearLemmas

section ClearTheorems

open vlarray

/-- C15: on an array with `n ≥ 1` elements `clear()` calls `destroy` on the elements
`n - 1, ..., 0` in that order and then `deallocate` once with count `n`, leaving size 0, a null
pointer and the same allocator; on an empty array it makes no call; a second `clear()` changes
nothing more. -/
theorem clear_spec {T : Type} (v : Obj) (w : World T) :
    (size v ≠ 0 →
      (clear v w).2.trace
        = w.trace
          ++ (List.range (size v)).reverse.map
            (fun j => Event.destroy (get_allocator v) (data v + j))
          ++ [Event.deallocate (get_allocator v) (data v) (size v)] ∧
      (∀ i, i < size v → operator_index v i (clear v w).2 = none)) ∧
    (size (clear v w).1 = 0 ∧ data (clear v w).1 = 0 ∧
      get_allocator (clear v w).1 = get_allocator v ∧ (clear v w).1.self = v.self) ∧
    (size v = 0 → (clear v w).2 = w) ∧
    clear (clear v w).1 (clear v w).2 = clear v w := by
  refine ⟨?_, ⟨rfl, rfl, rfl, rfl⟩, ?_, ?_⟩
  · intro h
    obtain ⟨htr, hlive, -, -⟩ := internal_clear_of_nonempty v w h
    refine ⟨htr, ?_⟩
    intro i hi
    have h1 := hlive (data v + i)
    have h2 : data v ≤ data v + i ∧ data v + i < data v + size v := by omega
    rw [if_pos h2] at h1
    exact h1
  · intro h
    exact internal_clear_of_empty v w h
  · have h0 : size (clear v w).1 = 0 := rfl
    show (_, internal_clear (clear v w).1 (clear v w).2) = _
    rw [internal_clear_of_empty _ _ h0]
    rfl

/-- Witness for C15: `clear()` on the array `b` of `World.two_arrays`. -/
theorem clear_spec_witness :
    (clear Obj.demo_b World.two_arrays).2.trace
      = World.two_arrays.trace
        ++ [Event.destroy 9 6, Event.destroy 9 5, Event.destroy 9 4, Event.deallocate 9 4 3] ∧
    (∀ i, i < size Obj.demo_b →
      operator_index Obj.demo_b i (clear Obj.demo_b World.two_arrays).2 = none) ∧
    size (clear Obj.demo_b World.two_arrays).1 = 0 :=
  have h := clear_spec Obj.demo_b World.two_arrays
  ⟨((h.1 (by decide)).1).trans (by decide), (h.1 (by decide)).2, h.2.1.1⟩

end ClearTheorems

section MoveLemmas

open vlarray

variable {T : Type}

theorem internal_clear_loop_counts (a dat sz : Nat) :
    ∀ (k i : Nat) (w : World T),
      (internal_clear_loop a dat sz k i w).nalloc = w.nalloc ∧
      (internal_clear_loop a dat sz k i w).nctor = w.nctor := by
  intro k
  induction k with
  | zero =>
    intro i w
    exact ⟨rfl, rfl⟩
  | succ k ih =>
    intro i w
    simp only [internal_clear_loop]
    obtain ⟨h1, h2⟩ := ih (i + 1) (destroy a (dat + (sz - i - 1)) w)
    exact ⟨h1, h2⟩

theorem internal_clear_counts (v : Obj) (w : World T) :
    (internal_clear v w).nalloc = w.nalloc ∧ (internal_clear v w).nctor = w.nctor := by
  unfold internal_clear
  split_ifs
  · exact ⟨rfl, rfl⟩
  · exact internal_clear_loop_counts v.r.alloc (data v) (size v) (size v) 0 w

theorem internal_construct_ok (env : Env) (a src n : Nat) (w : World T)
    (hown : src + n ≤ w.next)
    (hlive : ∀ j, j < n → w.live (src + j) ≠ none)
    (ha : env.alloc_throws w.nalloc = false)
    (hc : ∀ j, j < n → env.construct_throws (w.nctor + j) = false) :
    ∃ w1, internal_construct env a src n w = Result.ret (w.next + 1) w1 ∧
      (∀ addr, addr < w.next + 1 → w1.live addr = w.live addr) ∧
      (∀ j, j < n → w1.live (w.next + 1 + j) = w.live (src + j)) ∧
      Event.allocate a n (w.next + 1) ∈ w1.trace := by
  obtain ⟨w1, hw1, hframe, hval⟩ :=
    internal_construct_loop_ok env a (w.next + 1) src n 0 0
      { w with
        trace := w.trace ++ [Event.allocate a n (w.next + 1)]
        blocks := ⟨a, w.next + 1, n⟩ :: w.blocks
        next := w.next + 1 + n
        nalloc := w.nalloc + 1 }
      (by
        intro j hj
        have := hlive j hj
        simpa using this)
      hc (by omega)
  obtain ⟨-, ⟨evs, htr, -⟩, -⟩ :=
    (frame_internal_construct_loop 0 env a (w.next + 1) src (Nat.zero_le _) n 0 0 _).1 w1 hw1
  refine ⟨w1, ?_, ?_, ?_, ?_⟩
  · simp only [internal_construct, allocate_ok env a n w ha, hw1]
  · intro addr haddr
    exact hframe addr (by omega)
  · intro j hj
    have := hval j hj
    simpa using this
  · rw [htr]
    simp

theorem internal_clear_loop_ub (a dat sz : Nat) :
    ∀ (k i : Nat) (w : World T), i + k = sz →
      (∀ j, j < k → w.live (dat + j) ≠ none) →
      (internal_clear_loop a dat sz k i w).ub = w.ub := by
  intro k
  induction k with
  | zero =>
    intro i w _ _
    rfl
  | succ k ih =>
    intro i w h hl
    have hk : sz - i - 1 = k := by omega
    simp only [internal_clear_loop, hk]
    rw [ih (i + 1) (destroy a (dat + k) w) (by omega)
      (by
        intro j hj
        have hne : dat + j ≠ dat + k := by omega
        have := hl j (by omega)
        simpa [destroy, Function.update, hne] using this)]
    exact destroy_ub_of_alive a (dat + k) w (hl k (by omega))

/-- The calls of `internal_clear` on an array whose elements are all alive run no destructor
on raw storage. -/
theorem internal_clear_ub (v : Obj) (w : World T)
    (hl : ∀ i, i < size v → operator_index v i w ≠ none) :
    (internal_clear v w).ub = w.ub := by
  unfold internal_clear
  split_ifs
  · rfl
  · exact internal_clear_loop_ub v.r.alloc (data v) (size v) (size v) 0 w (by omega) hl

end MoveLemmas

section MoveTheorems

open vlarray

/-- Move-assignment with `propagate_on_container_move_assignment` false and unequal allocators,
the part that holds: a successful `a = move(b)` between distinct arrays leaves `b` and its
elements as they were,
keeps the allocator of `a`, copies the elements of `b` into a fresh block allocated from the
allocator of `a`, and only then destroys the previous elements of `a` in reverse order and
deallocates their block through the allocator of `a`; for an `a` of size 0 no call follows the
construction, whatever its pointer is. -/
theorem move_assign_unequal_copies {T : Type} (env : Env) (a b : Obj) (w : World T)
    (hne : a.self ≠ b.self) (halloc : get_allocator a ≠ get_allocator b)
    (howna : data a + size a ≤ w.next) (hownb : data b + size b ≤ w.next)
    (hdisj : data a + size a ≤ data b ∨ data b + size b ≤ data a)
    (hlive : ∀ i, i < size b → operator_index b i w ≠ none)
    (ha : env.alloc_throws w.nalloc = false)
    (hc : ∀ j, j < size b → env.construct_throws (w.nctor + j) = false) :
    ∃ a1 w0 w1, operator_assign_move env false a b w = (a1, b, Result.ret () w1) ∧
      internal_construct env (get_allocator a) (data b) (size b) w = Result.ret (data a1) w0 ∧
      get_allocator a1 = get_allocator a ∧ size a1 = size b ∧ a1.self = a.self ∧
      w.next < data a1 ∧
      Event.allocate (get_allocator a) (size b) (data a1) ∈ w0.trace ∧
      (∀ i, i < size b → operator_index a1 i w1 = operator_index b i w1) ∧
      (∀ i, i < size b → operator_index b i w1 = operator_index b i w) ∧
      (size a ≠ 0 →
        w1.trace = w0.trace
          ++ (List.range (size a)).reverse.map
            (fun j => Event.destroy (get_allocator a) (data a + j))
          ++ [Event.deallocate (get_allocator a) (data a) (size a)]) ∧
      (size a = 0 → w1 = w0) ∧
      (∀ i, i < size a → operator_index a i w1 = none) := by
  obtain ⟨w0, hw0, hframe, hval, hmem⟩ :=
    internal_construct_ok env (get_allocator a) (data b) (size b) w hownb
      (by intro j hj; exact hlive j hj) ha hc
  have hne2 : ¬ a.r.alloc = b.r.alloc := halloc
  have hw0r : internal_construct env a.r.alloc (data b) (size b) w
      = Result.ret (w.next + 1) w0 := hw0
  refine ⟨{ a with r := { a.r with data := w.next + 1, size := size b } }, w0,
    internal_clear a w0, ?_, hw0, rfl, rfl, rfl, ?_, hmem, ?_, ?_, ?_, ?_, ?_⟩
  · simp only [operator_assign_move, ne_eq, hne, not_false_eq_true, if_true,
      Bool.false_eq_true, if_false, internal_move_assign_false, hne2, hw0r]
  · show w.next < w.next + 1
    omega
  · intro i hi
    show (internal_clear a w0).live (w.next + 1 + i) = (internal_clear a w0).live (data b + i)
    rw [internal_clear_live, internal_clear_live]
    have h1 : ¬ (data a ≤ w.next + 1 + i ∧ w.next + 1 + i < data a + size a) := by omega
    have h2 : ¬ (data a ≤ data b + i ∧ data b + i < data a + size a) := by omega
    rw [if_neg h1, if_neg h2, hval i hi, hframe (data b + i) (by omega)]
  · intro i hi
    show (internal_clear a w0).live (data b + i) = w.live (data b + i)
    rw [internal_clear_live]
    have h2 : ¬ (data a ≤ data b + i ∧ data b + i < data a + size a) := by omega
    rw [if_neg h2, hframe (data b + i) (by omega)]
  · intro h
    exact (internal_clear_of_nonempty a w0 h).1
  · intro h
    exact internal_clear_of_empty a w0 h
  · intro i hi
    show (internal_clear a w0).live (data a + i) = none
    rw [internal_clear_live]
    have h2 : data a ≤ data a + i ∧ data a + i < data a + size a := by omega
    rw [if_pos h2]

/-- An instance of the element-wise move-assignment: `a = move(b)` for the two arrays of
`World.two_arrays`, whose allocators 7 and 9 are unequal. -/
theorem move_assign_unequal_copies_witness :
    ∃ (a1 : Obj) (w0 w1 : World Nat),
      operator_assign_move Env.never false Obj.demo_a Obj.demo_b World.two_arrays
        = (a1, Obj.demo_b, Result.ret () w1) ∧
      get_allocator a1 = 7 ∧ size a1 = 3 ∧
      (∀ i, i < 3 → operator_index a1 i w1 = operator_index Obj.demo_b i w1) ∧
      w1.trace = w0.trace ++ [Event.destroy 7 2, Event.destroy 7 1, Event.deallocate 7 1 2] :=
  (move_assign_unequal_copies Env.never Obj.demo_a Obj.demo_b World.two_arrays
    (by decide) (by decide) (by decide) (by decide) (by decide)
    (by
      intro i hi
      have h3 : i < 3 := hi
      interval_cases i <;> decide)
    rfl (fun _ _ => rfl)).elim
    fun a1 h1 => h1.elim fun w0 h0 => h0.elim fun w1 h =>
      ⟨a1, w0, w1, h.1, h.2.2.1, h.2.2.2.1, h.2.2.2.2.2.2.2.1,
        (h.2.2.2.2.2.2.2.2.2.1 (by decide)).trans
          (by simp [get_allocator, data, size, Obj.demo_a, List.range_succ])⟩

/-- Move-assignment with `propagate_on_container_move_assignment` true, the part that holds:
`a = move(b)` between distinct arrays always returns; for an `a` with elements it destroys
them in reverse order and deallocates their block through the allocator `a` had, for an `a`
of size 0 it makes no call, whatever its pointer is; it gives `a` the allocator, buffer and
size of `b`, leaves `b` with size 0 and a null pointer, and calls neither `allocate` nor
`construct`; a self move-assignment changes nothing. -/
theorem move_assign_propagate {T : Type} (env : Env) (a b : Obj) (w : World T)
    (hne : a.self ≠ b.self) :
    (∃ a1 b1 w1, operator_assign_move env true a b w = (a1, b1, Result.ret () w1) ∧
      (size a ≠ 0 →
        w1.trace = w.trace
          ++ (List.range (size a)).reverse.map
            (fun j => Event.destroy (get_allocator a) (data a + j))
          ++ [Event.deallocate (get_allocator a) (data a) (size a)]) ∧
      (size a = 0 → w1 = w) ∧
      (get_allocator a1 = get_allocator b ∧ data a1 = data b ∧ size a1 = size b ∧
        a1.self = a.self) ∧
      (size b1 = 0 ∧ data b1 = 0 ∧ b1.self = b.self) ∧
      w1.nalloc = w.nalloc ∧ w1.nctor = w.nctor) ∧
    (∀ pocma, operator_assign_move env pocma a a w = (a, a, Result.ret () w)) := by
  constructor
  · refine ⟨{ a with r := ⟨b.r.alloc, b.r.data, b.r.size⟩ },
      { b with r := { b.r with data := 0, size := 0 } }, internal_clear a w, ?_, ?_, ?_,
      ⟨rfl, rfl, rfl, rfl⟩, ⟨rfl, rfl, rfl⟩, ?_⟩
    · simp [operator_assign_move, hne, internal_move_assign_true]
    · intro h
      exact (internal_clear_of_nonempty a w h).1
    · intro h
      exact internal_clear_of_empty a w h
    · exact internal_clear_counts a w
  · intro pocma
    simp [operator_assign_move]

/-- An instance of the propagating move-assignment: `a = move(b)` for the two arrays of
`World.two_arrays`. -/
theorem move_assign_propagate_witness :
    ∃ a1 b1 w1, operator_assign_move Env.never true Obj.demo_a Obj.demo_b World.two_arrays
        = (a1, b1, Result.ret () w1) ∧
      w1.trace = World.two_arrays.trace
        ++ [Event.destroy 7 2, Event.destroy 7 1, Event.deallocate 7 1 2] ∧
      (get_allocator a1 = 9 ∧ data a1 = 4 ∧ size a1 = 3) ∧ size b1 = 0 ∧ data b1 = 0 :=
  (move_assign_propagate Env.never Obj.demo_a Obj.demo_b World.two_arrays (by decide)).1.elim
    fun a1 h1 => h1.elim fun b1 hb => hb.elim fun w1 h =>
      ⟨a1, b1, w1, h.1,
        (h.2.1 (by decide)).trans
          (by simp [get_allocator, data, size, Obj.demo_a, List.range_succ]),
        ⟨h.2.2.2.1.1, h.2.2.2.1.2.1, h.2.2.2.1.2.2.1⟩, h.2.2.2.2.1.1, h.2.2.2.2.1.2.1⟩

/-- C11 fails on the code: `a` built by the fill constructor with count 0 holds the block
`allocate(0)` handed out; `a = move(b)` with `propagate_on_container_move_assignment` false
and the unequal allocators 7 and 9 copies the three elements of `b` into a fresh block and
overwrites the pointer of `a` without any `deallocate` call: the previous storage of `a` is
not released and stays allocated. -/
theorem move_assign_unequal_leaks_zero_count_block :
    (∃ w : World Nat,
      ctor_fill Env.never 1000 7 0 (1 : Nat) (World.init Nat) = Result.ret Obj.demo_zero w) ∧
    World.zero_and_three.blocks = [⟨9, 2, 3⟩, ⟨7, 1, 0⟩] ∧
    ∃ (a1 : Obj) (w1 : World Nat),
      operator_assign_move Env.never false Obj.demo_zero Obj.demo_three World.zero_and_three
        = (a1, Obj.demo_three, Result.ret () w1) ∧
      data a1 = 6 ∧ size a1 = 3 ∧
      w1.trace = World.zero_and_three.trace ++
        [Event.allocate 7 3 6, Event.construct 7 6 42, Event.construct 7 7 42,
          Event.construct 7 8 42] ∧
      w1.blocks = [⟨7, 6, 3⟩, ⟨9, 2, 3⟩, ⟨7, 1, 0⟩] :=
  ⟨⟨_, rfl⟩, rfl, _, _, rfl, rfl, rfl, rfl, rfl⟩

/-- C12 fails on the code: `a` built by the fill constructor with count 0 holds the block
`allocate(0)` handed out; `a = move(b)` with `propagate_on_container_move_assignment` true
makes no call at all and overwrites the pointer of `a` with the buffer of `b`: the previous
storage of `a` is not released and stays allocated. -/
theorem move_assign_propagate_leaks_zero_count_block :
    (∃ w : World Nat,
      ctor_fill Env.never 1000 7 0 (1 : Nat) (World.init Nat) = Result.ret Obj.demo_zero w) ∧
    World.zero_and_three.blocks = [⟨9, 2, 3⟩, ⟨7, 1, 0⟩] ∧
    ∃ (a1 b1 : Obj) (w1 : World Nat),
      operator_assign_move Env.never true Obj.demo_zero Obj.demo_three World.zero_and_three
        = (a1, b1, Result.ret () w1) ∧
      (get_allocator a1 = 9 ∧ data a1 = 2 ∧ size a1 = 3) ∧
      w1.trace = World.zero_and_three.trace ∧
      w1.blocks = [⟨9, 2, 3⟩, ⟨7, 1, 0⟩] :=
  ⟨⟨_, rfl⟩, rfl, _, _, _, rfl, ⟨rfl, rfl, rfl⟩, rfl, rfl⟩

/-- C13: `a.swap(b)` exchanges the storage address, size and allocator of the two arrays and
makes no call (the world is the same); `a.swap(b)` followed by `b.swap(a)` gives both arrays
back as they were. -/
theorem swap_exchanges {T : Type} (a b : Obj) (w : World T) :
    (data (swap a b w).1 = data b ∧ size (swap a b w).1 = size b ∧
      get_allocator (swap a b w).1 = get_allocator b ∧ (swap a b w).1.self = a.self) ∧
    (data (swap a b w).2.1 = data a ∧ size (swap a b w).2.1 = size a ∧
      get_allocator (swap a b w).2.1 = get_allocator a ∧ (swap a b w).2.1.self = b.self) ∧
    (swap a b w).2.2 = w ∧
    (swap (swap a b w).2.1 (swap a b w).1 (swap a b w).2.2).1 = b ∧
    (swap (swap a b w).2.1 (swap a b w).1 (swap a b w).2.2).2.1 = a ∧
    (swap (swap a b w).2.1 (swap a b w).1 (swap a b w).2.2).2.2 = w :=
  ⟨⟨rfl, rfl, rfl, rfl⟩, ⟨rfl, rfl, rfl, rfl⟩, rfl, rfl, rfl, rfl⟩

end MoveTheorems

section CrementLemmas

open OffPtrBase OffPtr

theorem get_copy_ctor (w S2 : Nat) (p : Obj) (hS2 : S2 < 2 ^ w)
    (hns : (OffPtrBase.get w p + 1) % 2 ^ w ≠ S2) :
    OffPtrBase.get w (copy_ctor w S2 p) = OffPtrBase.get w p := by
  cases hn : null w p
  · have hoff : (copy_ctor w S2 p).offset = get_offset w S2 (OffPtrBase.get w p) := by
      simp [copy_ctor, hn]
    have hnn : null w (copy_ctor w S2 p) = false := by
      simp only [null, hoff, beq_eq_false_iff_ne]
      intro h
      exact hns ((get_offset_eq_null_value_iff w S2 _ hS2 (get_lt w p)).mp h)
    rw [get_of_null_false w _ hnn, hoff]
    exact add_offset_get_offset w S2 _ hS2 (get_lt w p)
  · have hnn : null w (copy_ctor w S2 p) = true := by
      unfold copy_ctor
      rw [hn]
      simp [null]
    rw [get_of_null_true w _ hnn, get_of_null_true w _ hn]

theorem crement_matches_native_ctor (w sz tmp : Nat) (p : Obj) (k : Int)
    (hS : p.self < 2 ^ w) (htmp : tmp < 2 ^ w)
    (h : representable w p.self tmp (ptr_add w sz (OffPtrBase.get w p) k)) :
    null w ⟨p.self, crement w sz p k⟩
      = null w (native_ctor w tmp (ptr_add w sz (OffPtrBase.get w p) k)) ∧
    OffPtrBase.get w ⟨p.self, crement w sz p k⟩
      = OffPtrBase.get w (native_ctor w tmp (ptr_add w sz (OffPtrBase.get w p) k)) := by
  obtain ⟨h0, h1, h2⟩ := h
  have ht := ptr_add_lt w sz (OffPtrBase.get w p) k
  have hn1 : null w ⟨p.self, crement w sz p k⟩ = false := by
    simp only [null, crement, beq_eq_false_iff_ne]
    intro hh
    exact h1 ((get_offset_eq_null_value_iff w p.self _ hS ht).mp hh)
  have hn2 : null w (native_ctor w tmp (ptr_add w sz (OffPtrBase.get w p) k)) = false := by
    simp only [null, native_ctor, h0, if_false, beq_eq_false_iff_ne]
    intro hh
    exact h2 ((get_offset_eq_null_value_iff w tmp _ htmp ht).mp hh)
  refine ⟨by rw [hn1, hn2], ?_⟩
  rw [get_native_ctor w tmp _ htmp ht h2, get_of_null_false w _ hn1]
  exact add_offset_get_offset w p.self _ hS ht

end CrementLemmas

section CrementTheorems

open OffPtrBase OffPtr

/-- C16 as stated fails. A 64-bit `OffPtr<char>` stored at 16 with target 100: `p + 3` built
at address 104 holds the sentinel and is null, while after `p += 3` the pointer is not null and
resolves to 103. Stored at 104 instead, `p += 3` stores the sentinel and `p` becomes null,
while `p + 3` built at 8192 resolves to 103. -/
theorem inplace_matches_value_form_counterexample :
    (null 64 (operator_plus_assign 64 1 ⟨16, 84⟩ 3) = false ∧
      null 64 (operator_plus 64 1 104 ⟨16, 84⟩ 3) = true ∧
      OffPtrBase.get 64 (operator_plus_assign 64 1 ⟨16, 84⟩ 3) = 103 ∧
      OffPtrBase.get 64 (operator_plus 64 1 104 ⟨16, 84⟩ 3) = 0) ∧
    (OffPtrBase.get 64 ⟨104, 2 ^ 64 - 4⟩ = 100 ∧
      null 64 (operator_plus_assign 64 1 ⟨104, 2 ^ 64 - 4⟩ 3) = true ∧
      null 64 (operator_plus 64 1 8192 ⟨104, 2 ^ 64 - 4⟩ 3) = false ∧
      OffPtrBase.get 64 (operator_plus_assign 64 1 ⟨104, 2 ^ 64 - 4⟩ 3) = 0 ∧
      OffPtrBase.get 64 (operator_plus 64 1 8192 ⟨104, 2 ^ 64 - 4⟩ 3) = 103) := by
  decide

/-- C16 (amended): whenever the new target is not the null native pointer and is neither the
address just before `p` nor the one just before the temporary, `p += n` leaves `p` with the
`null()` and `get()` of `p + n`, and likewise `p -= n` against `p - n`, `++p` against `p + 1`
and `--p` against `p - 1`; `p++` and `p--` update `p` as `++p` and `--p` do and return a
pointer that resolves to the former target of `p` unless that target is the address just
before the returned temporary. -/
theorem inplace_matches_value_form (w sz tmp : Nat) (p : Obj) (n : Int)
    (hS : p.self < 2 ^ w) (htmp : tmp < 2 ^ w) :
    (representable w p.self tmp (ptr_add w sz (OffPtrBase.get w p) n) →
      null w (operator_plus_assign w sz p n) = null w (operator_plus w sz tmp p n) ∧
      OffPtrBase.get w (operator_plus_assign w sz p n)
        = OffPtrBase.get w (operator_plus w sz tmp p n)) ∧
    (representable w p.self tmp (ptr_add w sz (OffPtrBase.get w p) (-n)) →
      null w (operator_minus_assign w sz p n) = null w (operator_minus w sz tmp p n) ∧
      OffPtrBase.get w (operator_minus_assign w sz p n)
        = OffPtrBase.get w (operator_minus w sz tmp p n)) ∧
    (representable w p.self tmp (ptr_add w sz (OffPtrBase.get w p) 1) →
      null w (operator_pre_inc w sz p) = null w (operator_plus w sz tmp p 1) ∧
      OffPtrBase.get w (operator_pre_inc w sz p)
        = OffPtrBase.get w (operator_plus w sz tmp p 1)) ∧
    (representable w p.self tmp (ptr_add w sz (OffPtrBase.get w p) (-1)) →
      null w (operator_pre_dec w sz p) = null w (operator_minus w sz tmp p 1) ∧
      OffPtrBase.get w (operator_pre_dec w sz p)
        = OffPtrBase.get w (operator_minus w sz tmp p 1)) ∧
    ((OffPtrBase.get w p + 1) % 2 ^ w ≠ tmp →
      OffPtrBase.get w (operator_post_inc w sz tmp p).1 = OffPtrBase.get w p ∧
      OffPtrBase.get w (operator_post_dec w sz tmp p).1 = OffPtrBase.get w p) ∧
    (operator_post_inc w sz tmp p).2 = operator_pre_inc w sz p ∧
    (operator_post_dec w sz tmp p).2 = operator_pre_dec w sz p := by
  refine ⟨?_, ?_, ?_, ?_, ?_, rfl, rfl⟩
  · exact crement_matches_native_ctor w sz tmp p n hS htmp
  · exact crement_matches_native_ctor w sz tmp p (-n) hS htmp
  · exact crement_matches_native_ctor w sz tmp p 1 hS htmp
  · exact crement_matches_native_ctor w sz tmp p (-1) hS htmp
  · intro h
    exact ⟨get_copy_ctor w tmp p htmp h, get_copy_ctor w tmp p htmp h⟩

/-- Witness for C16 (amended): an `OffPtr<T>` with `sizeof(T) = 8` at address 4096 with target
4200, `n = 5`, temporaries at address 8192. -/
theorem inplace_matches_value_form_witness :
    (4096 < 2 ^ 64 ∧ 8192 < 2 ^ 64) ∧
    (null 64 (operator_plus_assign 64 8 ⟨4096, 104⟩ 5)
        = null 64 (operator_plus 64 8 8192 ⟨4096, 104⟩ 5) ∧
      OffPtrBase.get 64 (operator_plus_assign 64 8 ⟨4096, 104⟩ 5)
        = OffPtrBase.get 64 (operator_plus 64 8 8192 ⟨4096, 104⟩ 5)) ∧
    (null 64 (operator_pre_dec 64 8 ⟨4096, 104⟩)
        = null 64 (operator_minus 64 8 8192 ⟨4096, 104⟩ 1) ∧
      OffPtrBase.get 64 (operator_pre_dec 64 8 ⟨4096, 104⟩)
        = OffPtrBase.get 64 (operator_minus 64 8 8192 ⟨4096, 104⟩ 1)) ∧
    OffPtrBase.get 64 (operator_post_inc 64 8 8192 ⟨4096, 104⟩).1 = 4200 ∧
    OffPtrBase.get 64 (operator_plus_assign 64 8 ⟨4096, 104⟩ 5) = 4240 :=
  have h := inplace_matches_value_form 64 8 8192 ⟨4096, 104⟩ 5 (by norm_num) (by norm_num)
  ⟨⟨by norm_num, by norm_num⟩,
    h.1 ⟨by decide, by decide, by decide⟩,
    h.2.2.2.1 ⟨by decide, by decide, by decide⟩,
    (h.2.2.2.2.1 (by decide)).1.trans (by decide),
    by decide⟩

/-- C18 fails on the code: a default-constructed (null) 64-bit `OffPtr<int>` at address 4096
after `p += 0` has `null()` false and `operator bool` true although `get()` is the null native
pointer; `p + 0` is null, as the pointer was. -/
theorem plus_assign_zero_on_null_not_null :
    null 64 (default_ctor 64 4096) = true ∧
    null 64 (operator_plus_assign 64 4 (default_ctor 64 4096) 0) = false ∧
    operator_bool 64 (operator_plus_assign 64 4 (default_ctor 64 4096) 0) = true ∧
    OffPtrBase.get 64 (operator_plus_assign 64 4 (default_ctor 64 4096) 0) = nullptr ∧
    null 64 (operator_plus 64 4 8192 (default_ctor 64 4096) 0) = true := by
  decide

end CrementTheorems

section ArenaLemmas

theorem round_up_spec (offset a : Nat) (ha : 0 < a) :
    a ∣ Arena.round_up offset a ∧ offset ≤ Arena.round_up offset a ∧
    ∀ m, a ∣ m → offset ≤ m → Arena.round_up offset a ≤ m := by
  unfold Arena.round_up
  have hdm := Nat.div_add_mod (offset + a - 1) a
  have hlt := Nat.mod_lt (offset + a - 1) ha
  have hcomm : a * ((offset + a - 1) / a) = (offset + a - 1) / a * a := Nat.mul_comm _ _
  refine ⟨Dvd.intro_left _ rfl, by omega, ?_⟩
  intro m hm hle
  obtain ⟨c, rfl⟩ := hm
  by_contra hcon
  have h1 : a * c < (offset + a - 1) / a * a := by omega
  have h2 : c < (offset + a - 1) / a := by
    rw [Nat.mul_comm a c] at h1
    exact Nat.lt_of_mul_lt_mul_right h1
  have h3 : (c + 1) * a ≤ (offset + a - 1) / a * a := Nat.mul_le_mul_right a h2
  have h4 : (c + 1) * a = a * c + a := by ring
  omega

theorem arena_wrapped_decrement (w offset a : Nat) (ha : 0 < a)
    (h : offset + a - 1 < 2 ^ w) :
    ((offset + a) % 2 ^ w + 2 ^ w - 1) % 2 ^ w = offset + a - 1 := by
  rw [mod_of_lt_two_mul (2 ^ w) (offset + a) (by omega)]
  split_ifs with h1
  · rw [mod_of_lt_two_mul (2 ^ w) _ (by omega)]
    split_ifs <;> omega
  · rw [mod_of_lt_two_mul (2 ^ w) _ (by omega)]
    split_ifs <;> omega

end ArenaLemmas

section ArenaTheorems

/-- One call of `Arena::allocate` without wrap-around: when `a > 0` and none of
`offset + a - 1`, the aligned offset and the aligned offset plus `n` wraps, and the aligned
offset plus `n` is at most `size`, `Arena::allocate(n, a)` returns the address `data + r`
where `r` is the least multiple of `a` not below the previous fill level, and sets the fill
level to `r + n`; `deallocate` leaves the fill level alone. -/
theorem arena_allocate_bumps (w : Nat) (A : Arena.State) (n a : Nat) (ha : 0 < a)
    (h1 : A.offset + a - 1 < 2 ^ w)
    (h2 : Arena.round_up A.offset a + n < 2 ^ w)
    (h3 : Arena.round_up A.offset a + n ≤ A.size) :
    Arena.allocate w A n a
      = (some ((A.data + Arena.round_up A.offset a) % 2 ^ w),
          { A with offset := Arena.round_up A.offset a + n }) ∧
    (a ∣ Arena.round_up A.offset a ∧ A.offset ≤ Arena.round_up A.offset a ∧
      ∀ m, a ∣ m → A.offset ≤ m → Arena.round_up A.offset a ≤ m) ∧
    (∀ p q, (Arena.deallocate (Arena.allocate w A n a).2 p q).offset
      = Arena.round_up A.offset a + n) ∧
    (∀ p q a2, 0 < a2 →
      Arena.round_up A.offset a + n
        ≤ Arena.round_up (Arena.deallocate (Arena.allocate w A n a).2 p q).offset a2) := by
  have hr : Arena.round_up A.offset a < 2 ^ w := by omega
  have heq : Arena.allocate w A n a
      = (some ((A.data + Arena.round_up A.offset a) % 2 ^ w),
          { A with offset := Arena.round_up A.offset a + n }) := by
    have hoff : ((((A.offset + a) % 2 ^ w + 2 ^ w - 1) % 2 ^ w) / a * a) % 2 ^ w
        = Arena.round_up A.offset a := by
      rw [arena_wrapped_decrement w A.offset a ha h1]
      exact Nat.mod_eq_of_lt hr
    have hsum : (Arena.round_up A.offset a + n) % 2 ^ w = Arena.round_up A.offset a + n :=
      Nat.mod_eq_of_lt h2
    have hle : ¬ (Arena.round_up A.offset a + n > A.size) := by omega
    simp only [Arena.allocate, hoff, hsum, hle, if_false]
  refine ⟨heq, round_up_spec A.offset a ha, ?_, ?_⟩
  · intro p q
    rw [heq]
    rfl
  · intro p q a2 ha2
    rw [heq]
    exact (round_up_spec _ a2 ha2).2.1

/-- An instance of one call without wrap-around: a 64-bit arena of 100 bytes at 4096 filled
to 10, asked for 20 bytes aligned to 8: the block starts at offset 16 and the fill level
becomes 36. -/
theorem arena_allocate_bumps_witness :
    Arena.allocate 64 ⟨4096, 100, 10⟩ 20 8 = (some 4112, ⟨4096, 100, 36⟩) ∧
    Arena.round_up 10 8 = 16 :=
  ⟨(arena_allocate_bumps 64 ⟨4096, 100, 10⟩ 20 8 (by decide) (by decide) (by decide)
      (by decide)).1.trans (by decide), by decide⟩

/-- Two calls of `Arena::allocate` without wrap-around, with a `deallocate` in between: the
second block starts at or after the end of the first. -/
theorem arena_later_block_starts_after (w : Nat) (A : Arena.State) (n a n2 a2 p q : Nat)
    (ha : 0 < a) (h1 : A.offset + a - 1 < 2 ^ w)
    (h2 : Arena.round_up A.offset a + n < 2 ^ w)
    (h3 : Arena.round_up A.offset a + n ≤ A.size)
    (ha2 : 0 < a2) (k1 : Arena.round_up A.offset a + n + a2 - 1 < 2 ^ w)
    (k2 : Arena.round_up (Arena.round_up A.offset a + n) a2 + n2 < 2 ^ w)
    (k3 : Arena.round_up (Arena.round_up A.offset a + n) a2 + n2 ≤ A.size) :
    (Arena.allocate w (Arena.deallocate (Arena.allocate w A n a).2 p q) n2 a2).1
      = some ((A.data + Arena.round_up (Arena.round_up A.offset a + n) a2) % 2 ^ w) ∧
    Arena.round_up A.offset a + n ≤ Arena.round_up (Arena.round_up A.offset a + n) a2 := by
  have hfirst := (arena_allocate_bumps w A n a ha h1 h2 h3).1
  have hsecond := (arena_allocate_bumps w
    { A with offset := Arena.round_up A.offset a + n } n2 a2 ha2 k1 k2 k3).1
  refine ⟨?_, (round_up_spec _ a2 ha2).2.1⟩
  rw [hfirst]
  show (Arena.allocate w { A with offset := Arena.round_up A.offset a + n } n2 a2).1 = _
  rw [hsecond]

/-- C20 fails on the code: in a 64-bit arena of 100 bytes filled to 10, `allocate(2^64 - 5, 1)`
returns normally with the fill level wrapped down to 5, and `allocate(4, 2^64 - 1)` returns the
block at offset 0, which lies below the fill level 10, and sets the fill level to 4. -/
theorem arena_allocate_wraps :
    Arena.allocate 64 ⟨4096, 100, 10⟩ (2 ^ 64 - 5) 1 = (some 4106, ⟨4096, 100, 5⟩) ∧
    Arena.allocate 64 ⟨4096, 100, 10⟩ 4 (2 ^ 64 - 1) = (some 4096, ⟨4096, 100, 4⟩) := by
  decide

end ArenaTheorems

section InvariantLemmas

open vlarray

variable {T : Type}

/-- The fill constructor with count 0, when `allocate` does not throw: the array has size 0
and the non-null pointer that `allocate(0)` returned. -/
theorem ctor_fill_zero_count (env : Env) (self alloc : Nat) (x : T) (w : World T)
    (ha : env.alloc_throws w.nalloc = false) :
    ∃ w1, ctor_fill env self alloc 0 x w = Result.ret ⟨self, ⟨alloc, w.next + 1, 0⟩⟩ w1 ∧
      (⟨alloc, w.next + 1, 0⟩ : Block) ∈ w1.blocks := by
  refine ⟨{ w with
    trace := w.trace ++ [Event.allocate alloc 0 (w.next + 1)]
    blocks := ⟨alloc, w.next + 1, 0⟩ :: w.blocks
    next := w.next + 1 + 0
    nalloc := w.nalloc + 1 }, ?_, ?_⟩
  · simp only [ctor_fill, allocate_ok env alloc 0 w ha, fill_loop]
  · exact List.mem_cons_self _ _

/-- A successful copy-assignment with allocator propagation between distinct arrays, for any
non-empty target: the last call is the `deallocate` of the old block of the target, made on
the allocator of the source. -/
theorem operator_assign_propagate_releases_through_source (env : Env) (a b : Obj)
    (w : World T) (hne : a.self ≠ b.self) (hsz : size a ≠ 0)
    (hownb : data b + size b ≤ w.next)
    (hlive : ∀ i, i < size b → operator_index b i w ≠ none)
    (ha : env.alloc_throws w.nalloc = false)
    (hc : ∀ j, j < size b → env.construct_throws (w.nctor + j) = false) :
    ∃ (a1 : Obj) (w0 w1 : World T), operator_assign env true a b w = (a1, Result.ret () w1) ∧
      w1.trace = w0.trace
        ++ (List.range (size a)).reverse.map
          (fun j => Event.destroy (get_allocator b) (data a + j))
        ++ [Event.deallocate (get_allocator b) (data a) (size a)] := by
  obtain ⟨w0, hw0, -, -, -⟩ :=
    internal_construct_ok env (get_allocator b) (data b) (size b) w hownb
      (by intro j hj; exact hlive j hj) ha hc
  have hw0r : internal_construct env b.r.alloc (data b) (size b) w
      = Result.ret (w.next + 1) w0 := hw0
  have hne2 : ¬ a.self = b.self := hne
  refine ⟨⟨a.self, ⟨b.r.alloc, w.next + 1, size b⟩⟩, w0,
    internal_clear { a with r := { a.r with alloc := b.r.alloc } } w0, ?_, ?_⟩
  · simp only [operator_assign, hne2, if_false, if_true, hw0r]
  · exact (internal_clear_of_nonempty { a with r := { a.r with alloc := b.r.alloc } } w0 hsz).1

end InvariantLemmas

section InvariantTheorems

open vlarray

/-- C14 fails on the code: the fill constructor with count 0 returns an array of size 0 whose
pointer is the non-null block `allocate(0)` handed out, and the destructor, which returns at
once on an empty array, leaves that block allocated; a copy of a default-constructed array is
in the same state. -/
theorem ctor_fill_zero_keeps_pointer :
    (∃ (v : Obj) (w1 : World Nat),
      ctor_fill Env.never 1000 7 0 (42 : Nat) (World.init Nat) = Result.ret v w1 ∧
      size v = 0 ∧ data v = 1 ∧ w1.blocks = [⟨7, 1, 0⟩] ∧ (dtor v w1).blocks = [⟨7, 1, 0⟩]) ∧
    (size (ctor_alloc 1000 7) = 0 ∧ data (ctor_alloc 1000 7) = 0 ∧
      ∃ (v : Obj) (w1 : World Nat),
        ctor_copy Env.never id 3000 (ctor_alloc 1000 7) (World.init Nat) = Result.ret v w1 ∧
        size v = 0 ∧ data v = 1) :=
  ⟨⟨_, _, rfl, rfl, rfl, rfl, rfl⟩, rfl, rfl, _, _, rfl, rfl, rfl⟩

/-- C19 fails on the code: `a = b` with allocator propagation, for the arrays of
`World.two_arrays` with the unequal allocators 7 and 9, destroys the two old elements of `a`
and deallocates their block, which allocator 7 handed out, through allocator 9. -/
theorem operator_assign_releases_through_adopted_allocator :
    Event.allocate 7 2 1 ∈ World.two_arrays.trace ∧
    ∃ (a1 : Obj) (w1 : World Nat),
      operator_assign Env.never true Obj.demo_a Obj.demo_b World.two_arrays
        = (a1, Result.ret () w1) ∧
      get_allocator a1 = 9 ∧
      w1.trace = World.two_arrays.trace ++
        [Event.allocate 9 3 8, Event.construct 9 8 42, Event.construct 9 9 42,
          Event.construct 9 10 42, Event.destroy 9 2, Event.destroy 9 1,
          Event.deallocate 9 1 2] :=
  ⟨by decide, _, _, rfl, rfl, rfl⟩

end InvariantTheorems
